import Mathlib

/-!
# libCacheSim: FIFO with re-insertion, and the LCS trace reader

A shallow embedding of `libCacheSim/cache/eviction/FIFO_Reinsertion.c` and of
`libCacheSim/traceReader/customizedReader/lcs.c`.

Memory is an arena: a pointer to a `cache_obj_t` is an index into `cache_t.heap`,
a freed or never allocated cell reads as `none`.  The hash table and the
eviction queue both hold pointers into that arena, so that a write through a
pointer found in the hash table is seen through the queue, as in the C code.
A C call that would dereference a null or dangling pointer, fail an assertion
or abort yields `none`.
-/

namespace libCacheSim

/-! ## Data model -/

/-- Modelled from the spec: `cache_obj_t` (declared in `cache_obj.h`, which is not among the
sources). An Object Record: object id, size in bytes, the hotness counter `lfu.freq` and the
recorded next-access virtual time. The intrusive previous/next links are represented by the
position of the record's pointer in the queue sequence `cache_t.q`. -/
structure cache_obj_t where
  obj_id : Nat
  obj_size : Int
  freq : Int
  next_access_vtime : Int
deriving DecidableEq, Repr

/-- Modelled from the spec: `request_t` (declared in `request.h`, which is not among the
sources). One trace event: timestamp, object id, object size, next-access virtual time, tenant
id, operation code and the validity flag. -/
structure request_t where
  clock_time : Int
  obj_id : Nat
  obj_size : Int
  next_access_vtime : Int
  tenant_id : Int
  op : Int
  valid : Bool
deriving DecidableEq, Repr

/-- Modelled from the spec: `cache_t` (declared in `cache.h`, which is not among the sources).
The Cache Engine state: the arena of records, the index (`hashtable`, the pointers of the indexed
records), the object count and the occupied bytes; `q` is the policy state
`FIFO_Reinsertion_params_t` of the source, the records linked from `q_head` (first) to `q_tail`
(last). -/
structure cache_t where
  heap : List (Option cache_obj_t)
  hashtable : List Nat
  q : List Nat
  n_obj : Int
  occupied_byte : Int
deriving DecidableEq, Repr

/-- The largest `int64_t`, from `stdint.h`. -/
def INT64_MAX : Int := 9223372036854775807

/-- Dereference of a record pointer; `none` for a pointer that is not live. -/
def heap_read (h : List (Option cache_obj_t)) (p : Nat) : Option cache_obj_t :=
  match h[p]? with
  | some (some o) => some o
  | _ => none

/-- Assignment to fields of the record at `p`: `f` is applied to the record in place. -/
def heap_modify (h : List (Option cache_obj_t)) (p : Nat) (f : cache_obj_t → cache_obj_t) :
    List (Option cache_obj_t) :=
  match heap_read h p with
  | some o => h.set p (some (f o))
  | none => h

/-- The field `q_head` of `FIFO_Reinsertion_params_t`: null iff the queue is empty. -/
def q_head (cache : cache_t) : Option Nat := cache.q.head?

/-- The field `q_tail` of `FIFO_Reinsertion_params_t`: null iff the queue is empty. -/
def q_tail (cache : cache_t) : Option Nat := cache.q.getLast?

/-! ## Collaborators that are not among the sources -/

/-- Modelled from the spec: `hashtable_find_obj_id` (the hash index is not among the sources).
Consults the index by object id and gives the matched record, or null. -/
def hashtable_find_obj_id (cache : cache_t) (obj_id : Nat) : Option Nat :=
  cache.hashtable.find? (fun p =>
    match heap_read cache.heap p with
    | some o => o.obj_id == obj_id
    | none => false)

/-- Modelled from the spec: `prepend_obj_to_head` (the queue operations are not among the
sources). Section 4.1: insert the record at the head. -/
def prepend_obj_to_head (q : List Nat) (obj : Nat) : List Nat := obj :: q

/-- Modelled from the spec: `remove_obj_from_list` (the queue operations are not among the
sources). Section 4.1: unlink the record from its current position. -/
def remove_obj_from_list (q : List Nat) (obj : Nat) : List Nat := q.erase obj

/-- Modelled from the spec: `move_obj_to_head` (the queue operations are not among the sources).
Section 4.1: remove then prepend. -/
def move_obj_to_head (q : List Nat) (obj : Nat) : List Nat :=
  prepend_obj_to_head (remove_obj_from_list q obj) obj

/-- Modelled from the spec: `cache_check_base` (the Cache Engine shell is not among the sources).
Section 4.2: consults the index by object id; gives hit or miss and the matched record (null on
a miss) through `cache_obj_ret`; the queue position is not touched. -/
def cache_check_base (cache : cache_t) (req : request_t) (_update_cache : Bool) :
    Bool × Option Nat :=
  match hashtable_find_obj_id cache req.obj_id with
  | some obj => (true, some obj)
  | none => (false, none)

/-- Modelled from the spec: `cache_insert_base` (the Cache Engine shell is not among the sources).
Section 4.2: fails if an object with the same id already exists; otherwise allocates a new
Object Record, registers it in the index and increments occupied bytes and object count. -/
def cache_insert_base (cache : cache_t) (req : request_t) : Option (cache_t × Nat) :=
  match hashtable_find_obj_id cache req.obj_id with
  | some _ => none
  | none =>
    let obj := cache.heap.length
    some ({ cache with
            heap := cache.heap ++ [some { obj_id := req.obj_id, obj_size := req.obj_size,
                                          freq := 0,
                                          next_access_vtime := req.next_access_vtime }],
            hashtable := obj :: cache.hashtable,
            n_obj := cache.n_obj + 1,
            occupied_byte := cache.occupied_byte + req.obj_size }, obj)

/-- Modelled from the spec: `cache_remove_obj_base` (the Cache Engine shell is not among the
sources). Sections 3 and 4.2: decrements the counters and, when asked to, erases the record from
the index and destroys it. -/
def cache_remove_obj_base (cache : cache_t) (obj : Nat) (remove_from_hashtable : Bool) :
    Option cache_t :=
  match heap_read cache.heap obj with
  | none => none
  | some o =>
    some { cache with
           heap := if remove_from_hashtable then cache.heap.set obj none else cache.heap,
           hashtable := if remove_from_hashtable then cache.hashtable.erase obj
                        else cache.hashtable,
           n_obj := cache.n_obj - 1,
           occupied_byte := cache.occupied_byte - o.obj_size }

/-- Modelled from the spec: `cache_evict_base` (the Cache Engine shell is not among the sources).
Section 4.2: removes the victim from the index and decrements the counters. -/
def cache_evict_base (cache : cache_t) (obj : Nat) (remove_from_hashtable : Bool) :
    Option cache_t :=
  cache_remove_obj_base cache obj remove_from_hashtable

/-! ## FIFO_Reinsertion.c -/

/-- The source function `FIFO_Reinsertion_check`: the base check, then `lfu.freq += 1` on the
matched record whenever `cached_obj` is not null. -/
def FIFO_Reinsertion_check (cache : cache_t) (req : request_t) (update_cache : Bool) :
    Bool × cache_t :=
  match cache_check_base cache req update_cache with
  | (cache_hit, some cached_obj) =>
    (cache_hit, { cache with
                  heap := heap_modify cache.heap cached_obj
                            (fun o => { o with freq := o.freq + 1 }) })
  | (cache_hit, none) => (cache_hit, cache)

/-- The source function `FIFO_Reinsertion_insert`: base insertion, prepend to the head of the
queue, `lfu.freq = 1`; gives the new cache state and the new record. -/
def FIFO_Reinsertion_insert (cache : cache_t) (req : request_t) : Option (cache_t × Nat) :=
  match cache_insert_base cache req with
  | none => none
  | some (cache1, obj) =>
    let cache2 := { cache1 with q := prepend_obj_to_head cache1.q obj }
    some ({ cache2 with heap := heap_modify cache2.heap obj (fun o => { o with freq := 1 }) },
          obj)

/-- The loop condition of `FIFO_Reinsertion_to_evict`, in the build with `USE_BELADY` defined
and in the default build. -/
def keep_scanning (USE_BELADY : Bool) (o : cache_obj_t) : Bool :=
  if USE_BELADY then decide (o.freq > 1) && decide (o.next_access_vtime ≠ INT64_MAX)
  else decide (o.freq > 1)

/-- The source function `FIFO_Reinsertion_to_evict`. Each unit of `fuel` pays for one evaluation
of the loop condition; the result is the cache state on return, the returned record and the
number of times the loop body (a reinsertion) ran.  `none`: the fuel ran out, or the tail pointer
was null or dangling. -/
def FIFO_Reinsertion_to_evict (USE_BELADY : Bool) :
    Nat → cache_t → Option (cache_t × Nat × Nat)
  | 0, _ => none
  | fuel + 1, cache =>
    match q_tail cache with
    | none => none
    | some obj_to_evict =>
      match heap_read cache.heap obj_to_evict with
      | none => none
      | some o =>
        if keep_scanning USE_BELADY o then
          let cache1 := { cache with
                          heap := heap_modify cache.heap obj_to_evict
                                    (fun o => { o with freq := 1 }) }
          let cache2 := { cache1 with q := move_obj_to_head cache1.q obj_to_evict }
          match FIFO_Reinsertion_to_evict USE_BELADY fuel cache2 with
          | none => none
          | some (cache3, obj, k) => some (cache3, obj, k + 1)
        else some (cache, obj_to_evict, 0)

/-- The source function `FIFO_Reinsertion_evict`. The flag `evicted_obj` says whether the caller
supplied a non-null output slot; the second component of the result is the content of that slot
after the `memcpy`. The request argument is not used by the source. -/
def FIFO_Reinsertion_evict (USE_BELADY : Bool) (fuel : Nat) (cache : cache_t)
    (evicted_obj : Bool) : Option (cache_t × Option cache_obj_t) :=
  match FIFO_Reinsertion_to_evict USE_BELADY fuel cache with
  | none => none
  | some (cache1, obj_to_evict, _) =>
    let slot := if evicted_obj then heap_read cache1.heap obj_to_evict else none
    let cache2 := { cache1 with q := remove_obj_from_list cache1.q obj_to_evict }
    match cache_evict_base cache2 obj_to_evict true with
    | none => none
    | some cache3 => some (cache3, slot)

/-- The source function `FIFO_Reinsertion_remove_obj`. -/
def FIFO_Reinsertion_remove_obj (cache : cache_t) (obj : Nat) : Option cache_t :=
  cache_remove_obj_base { cache with q := remove_obj_from_list cache.q obj } obj true

/-- The source function `FIFO_Reinsertion_remove`. -/
def FIFO_Reinsertion_remove (cache : cache_t) (obj_id : Nat) : Option (Bool × cache_t) :=
  match hashtable_find_obj_id cache obj_id with
  | none => some (false, cache)
  | some obj =>
    match FIFO_Reinsertion_remove_obj cache obj with
    | none => none
    | some cache1 => some (true, cache1)

/-- Modelled from the spec: the initial empty cache. `cache_struct_init` (not among the sources)
creates a cache with nothing indexed and both counters zero, and `FIFO_Reinsertion_init` sets
`q_head` and `q_tail` to null. -/
def empty_cache : cache_t :=
  { heap := [], hashtable := [], q := [], n_obj := 0, occupied_byte := 0 }

/-- Modelled from the spec: `common_cache_params_t` (declared in `cache.h`, which is not among
the sources): the capacity of the cache. -/
structure common_cache_params_t where
  cache_size : Int
deriving DecidableEq, Repr

/-- Modelled from the spec: `cache_struct_init` (the Cache Engine shell is not among the
sources): a new cache holds no record and both counters are zero. -/
def cache_struct_init (_ccache_params : common_cache_params_t) : cache_t := empty_cache

/-- The source function `FIFO_Reinsertion_init`. The configuration string is a C pointer: `none`
is the null pointer, `some s` a pointer to the string `s`. The result `none` is `abort()`;
otherwise the cache is returned with `q_head` and `q_tail` set to null. -/
def FIFO_Reinsertion_init (ccache_params : common_cache_params_t)
    (cache_specific_params : Option String) : Option cache_t :=
  let cache := cache_struct_init ccache_params
  if cache_specific_params.isSome then none
  else some { cache with q := [] }

/-- A request for object `id` of `size` bytes. -/
def mk_req (id : Nat) (size : Int) : request_t :=
  { clock_time := 0, obj_id := id, obj_size := size, next_access_vtime := 0, tenant_id := 0,
    op := 0, valid := true }

/-! ## lcs.c -/

/-- Modelled from the spec: the enumeration of read directions (declared in `reader.h`, which is
not among the sources). -/
inductive read_direction_t where
  | READ_FORWARD
  | READ_BACKWARD
deriving DecidableEq, Repr

/-- Modelled from the spec: the record frames `lcs_req_v1_t`, `lcs_req_v2_t` and `lcs_req_v3_t`
(declared in `lcs.h`, which is not among the sources), as the fields that the struct of the
reader's version lays over the bytes of one frame. Version 1 has time, id, size and
reuse-distance; versions 2 and 3 add tenant id and operation code. A version-1 frame has no
`tenant` and no `op`: the version-1 decoder never reads them. -/
structure lcs_frame_t where
  clock_time : Int
  obj_id : Nat
  obj_size : Int
  next_access_vtime : Int
  tenant : Int
  op : Int
deriving DecidableEq, Repr

/-- Modelled from the spec: the enumeration of trace types (declared in `enum.h`, which is not
among the sources): the value that `lcsReader_setup` assigns, and any other value. -/
inductive trace_type_e where
  | LCS_TRACE
  | OTHER_TRACE
deriving DecidableEq, Repr

/-- Modelled from the spec: the enumeration of trace formats (declared in `enum.h`, which is not
among the sources): the value that `lcsReader_setup` assigns, and any other value. -/
inductive trace_format_e where
  | BINARY_TRACE_FORMAT
  | OTHER_TRACE_FORMAT
deriving DecidableEq, Repr

/-- Modelled from the spec: `reader_t` (declared in `reader.h`, which is not among the sources),
the fields that `lcsReader_setup` and `lcs_read_one_req` use. `records` are the complete frames
that `read_bytes` has still to deliver, the next one first. -/
structure reader_t where
  lcs_ver : Int
  item_size : Nat
  ignore_size_zero_req : Bool
  read_direction : read_direction_t
  records : List lcs_frame_t
  trace_type : trace_type_e
  trace_format : trace_format_e
  trace_start_offset : Nat
  obj_id_is_num : Bool
deriving DecidableEq, Repr

/-- Modelled from the spec: `lcs_trace_stat_t` (declared in `lcs.h`, which is not among the
sources), the two fields of the statistics block that `verify` reads. -/
structure lcs_trace_stat_t where
  n_req : Int
  n_obj : Int
deriving DecidableEq, Repr

/-- Modelled from the spec: `lcs_trace_header_t` (declared in `lcs.h`, which is not among the
sources): the two magic numbers that bracket the header, the version and the statistics
block. -/
structure lcs_trace_header_t where
  start_magic : Nat
  version : Int
  stat : lcs_trace_stat_t
  end_magic : Nat
deriving DecidableEq, Repr

/-- The constants of `lcs.h` (not among the sources) that `verify` and `lcsReader_setup` use,
and the sizes of its structs; they are parameters of the embedding. -/
structure lcs_h where
  LCS_TRACE_START_MAGIC : Nat
  LCS_TRACE_END_MAGIC : Nat
  MAX_LCS_VERSION : Int
  sizeof_lcs_trace_header_t : Nat
  sizeof_lcs_req_v1_t : Nat
  sizeof_lcs_req_v2_t : Nat
  sizeof_lcs_req_v3_t : Nat
deriving DecidableEq, Repr

/-- How a call of `lcsReader_setup` ends: `exit(status)`, with the reader as it is at that moment,
or a return, with the return value and the reader. -/
inductive setup_result where
  | exit (status : Int) (reader : reader_t)
  | ret (value : Int) (reader : reader_t)
deriving DecidableEq, Repr

/-- The source function `verify`. -/
def verify (k : lcs_h) (header : lcs_trace_header_t) : Bool :=
  if header.start_magic ≠ k.LCS_TRACE_START_MAGIC then false
  else if header.end_magic ≠ k.LCS_TRACE_END_MAGIC then false
  else if header.version > k.MAX_LCS_VERSION then false
  else if header.stat.n_req < 0 ∨ header.stat.n_obj < 0 then false
  else true

/-- The source function `lcsReader_setup`; `header` is the header frame that `read_bytes`
delivers from the start of the stream. -/
def lcsReader_setup (k : lcs_h) (reader : reader_t) (header : lcs_trace_header_t) :
    setup_result :=
  if !verify k header then setup_result.exit 1 reader
  else
    let reader1 := { reader with lcs_ver := header.version,
                                 trace_type := trace_type_e.LCS_TRACE,
                                 trace_format := trace_format_e.BINARY_TRACE_FORMAT,
                                 trace_start_offset := k.sizeof_lcs_trace_header_t,
                                 obj_id_is_num := true }
    if reader1.lcs_ver = 1 then
      setup_result.ret 0 { reader1 with item_size := k.sizeof_lcs_req_v1_t }
    else if reader1.lcs_ver = 2 then
      setup_result.ret 0 { reader1 with item_size := k.sizeof_lcs_req_v2_t }
    else if reader1.lcs_ver = 3 then
      setup_result.ret 0 { reader1 with item_size := k.sizeof_lcs_req_v3_t }
    else setup_result.exit 1 reader1

/-- The version dispatch of `lcs_read_one_req` (the `if`/`else if` chain on `reader->lcs_ver`):
the request after the field assignments, or `none` in the branch that reports an invalid
version. -/
def lcs_decode (lcs_ver : Int) (record : lcs_frame_t) (req : request_t) : Option request_t :=
  if lcs_ver = 1 then
    some { req with clock_time := record.clock_time, obj_id := record.obj_id,
                    obj_size := record.obj_size,
                    next_access_vtime := record.next_access_vtime }
  else if lcs_ver = 2 then
    some { req with clock_time := record.clock_time, obj_id := record.obj_id,
                    obj_size := record.obj_size,
                    next_access_vtime := record.next_access_vtime,
                    tenant_id := record.tenant, op := record.op }
  else if lcs_ver = 3 then
    some { req with clock_time := record.clock_time, obj_id := record.obj_id,
                    obj_size := record.obj_size,
                    next_access_vtime := record.next_access_vtime,
                    tenant_id := record.tenant, op := record.op }
  else none

/-- The second `if` of `lcs_read_one_req`: the rewrite of the reuse-distance of the request.
`MAX_REUSE_DISTANCE` is a constant of a header that is not among the sources. -/
def lcs_normalize (MAX_REUSE_DISTANCE : Int) (req : request_t) : request_t :=
  if req.next_access_vtime = -1 ∨ req.next_access_vtime = INT64_MAX then
    { req with next_access_vtime := MAX_REUSE_DISTANCE }
  else req

/-- The body of `lcs_read_one_req` over the frames that `read_bytes` has still to deliver:
`read_bytes` hands out the first of them, or null when none is left. The result is the return
value, the frames left in the reader and the request. -/
def lcs_read_frames (MAX_REUSE_DISTANCE : Int) (lcs_ver : Int) (ignore_size_zero_req : Bool)
    (read_direction : read_direction_t) : List lcs_frame_t → request_t →
    Int × List lcs_frame_t × request_t
  | [], req => (1, [], { req with valid := false })
  | record :: rest, req =>
    match lcs_decode lcs_ver record req with
    | none => (1, rest, req)
    | some req1 =>
      let req2 := lcs_normalize MAX_REUSE_DISTANCE req1
      if req2.obj_size = 0 ∧ ignore_size_zero_req = true
          ∧ read_direction = read_direction_t.READ_FORWARD then
        lcs_read_frames MAX_REUSE_DISTANCE lcs_ver ignore_size_zero_req read_direction rest req2
      else (0, rest, req2)

/-- The source function `lcs_read_one_req`: the return value, the reader after the reads and
the request. -/
def lcs_read_one_req (MAX_REUSE_DISTANCE : Int) (reader : reader_t) (req : request_t) :
    Int × reader_t × request_t :=
  match lcs_read_frames MAX_REUSE_DISTANCE reader.lcs_ver reader.ignore_size_zero_req
          reader.read_direction reader.records req with
  | (ret, rest, req1) => (ret, { reader with records := rest }, req1)

/-- The body of `lcs_read_one_req` as in `lcs_read_frames`, together with the number of
invocations of the function that the call makes, itself included. Every invocation calls
`read_bytes` exactly once, and an invocation calls itself at most once, as its last action: the
number of invocations is the number of `read_bytes` calls and the depth of the recursion. -/
def lcs_read_frames_traced (MAX_REUSE_DISTANCE : Int) (lcs_ver : Int)
    (ignore_size_zero_req : Bool) (read_direction : read_direction_t) :
    List lcs_frame_t → request_t → Nat × (Int × List lcs_frame_t × request_t)
  | [], req => (1, (1, [], { req with valid := false }))
  | record :: rest, req =>
    match lcs_decode lcs_ver record req with
    | none => (1, (1, rest, req))
    | some req1 =>
      let req2 := lcs_normalize MAX_REUSE_DISTANCE req1
      if req2.obj_size = 0 ∧ ignore_size_zero_req = true
          ∧ read_direction = read_direction_t.READ_FORWARD then
        match lcs_read_frames_traced MAX_REUSE_DISTANCE lcs_ver ignore_size_zero_req
                read_direction rest req2 with
        | (calls, r) => (calls + 1, r)
      else (1, (0, rest, req2))

/-- The number of invocations of `lcs_read_one_req` (equally: of calls of `read_bytes`, and the
depth of the recursion) that one call on `reader` makes. -/
def lcs_read_one_req_calls (MAX_REUSE_DISTANCE : Int) (reader : reader_t) (req : request_t) :
    Nat :=
  (lcs_read_frames_traced MAX_REUSE_DISTANCE reader.lcs_ver reader.ignore_size_zero_req
    reader.read_direction reader.records req).1

/-! ## Predicates of the verification -/

/-- A well-formed queue: no record is linked twice, and every linked record is live. -/
def queue_ok (cache : cache_t) : Prop :=
  cache.q.Nodup ∧ ∀ p ∈ cache.q, (heap_read cache.heap p).isSome = true

/-- The loop condition of `FIFO_Reinsertion_to_evict` at the record that `p` points to. -/
def scan_keeps (USE_BELADY : Bool) (h : List (Option cache_obj_t)) (p : Nat) : Bool :=
  match heap_read h p with
  | some o => keep_scanning USE_BELADY o
  | none => false

/-- The arena after `lfu.freq = 1` has been assigned to each record of `hs`. -/
def reset_all (h : List (Option cache_obj_t)) (hs : List Nat) : List (Option cache_obj_t) :=
  hs.foldr (fun p h1 => heap_modify h1 p (fun o => { o with freq := 1 })) h

/-- The hotness of the record that `p` points to, if it is live. -/
def hotness (h : List (Option cache_obj_t)) (p : Nat) : Option Int :=
  (heap_read h p).map (fun o => o.freq)

/-- A cache in which `A` (pointer 0) has been inserted and hit once, and then `B` (pointer 1)
and `C` (pointer 2) have been inserted: the queue is `[C, B, A]` and `A` has hotness 2. -/
def example_cache : cache_t :=
  { heap := [some { obj_id := 10, obj_size := 5, freq := 2, next_access_vtime := 0 },
             some { obj_id := 20, obj_size := 7, freq := 1, next_access_vtime := 0 },
             some { obj_id := 30, obj_size := 9, freq := 1, next_access_vtime := 0 }],
    hashtable := [2, 1, 0], q := [2, 1, 0], n_obj := 3, occupied_byte := 21 }

/-- The size in bytes of the record that `p` points to; 0 for a pointer that is not live. -/
def size_at (h : List (Option cache_obj_t)) (p : Nat) : Int :=
  match heap_read h p with
  | some o => o.obj_size
  | none => 0

/-- The sum of the sizes of the resident records, taken along the eviction queue. -/
def resident_bytes (cache : cache_t) : Int := (cache.q.map (size_at cache.heap)).sum

/-- The coherence invariant of the Cache Engine state: index and queue hold the same records,
no record is linked or indexed twice, every linked record is live, and the two counters agree
with the queue. -/
structure cache_inv (cache : cache_t) : Prop where
  index_iff : ∀ p, p ∈ cache.hashtable ↔ p ∈ cache.q
  q_nodup : cache.q.Nodup
  ht_nodup : cache.hashtable.Nodup
  q_live : ∀ p ∈ cache.q, (heap_read cache.heap p).isSome = true
  n_obj_eq : cache.n_obj = cache.q.length
  bytes_eq : cache.occupied_byte = resident_bytes cache

/-- The reachable states of a FIFO_Reinsertion cache: those obtained from the initial empty
cache by a finite sequence of insert of a non-resident id, check, evict on a non-empty cache,
and remove, each of which returns. -/
inductive reachable (USE_BELADY : Bool) : cache_t → Prop where
  | init : reachable USE_BELADY empty_cache
  | insert (c c1 : cache_t) (req : request_t) (obj : Nat) :
      reachable USE_BELADY c → hashtable_find_obj_id c req.obj_id = none →
      FIFO_Reinsertion_insert c req = some (c1, obj) → reachable USE_BELADY c1
  | check (c : cache_t) (req : request_t) (update_cache : Bool) :
      reachable USE_BELADY c →
      reachable USE_BELADY (FIFO_Reinsertion_check c req update_cache).2
  | evict (c c1 : cache_t) (fuel : Nat) (evicted_obj : Bool) (slot : Option cache_obj_t) :
      reachable USE_BELADY c → c.q ≠ [] →
      FIFO_Reinsertion_evict USE_BELADY fuel c evicted_obj = some (c1, slot) →
      reachable USE_BELADY c1
  | remove (c c1 : cache_t) (obj_id : Nat) (found : Bool) :
      reachable USE_BELADY c → FIFO_Reinsertion_remove c obj_id = some (found, c1) →
      reachable USE_BELADY c1

/-- A version-2 reader that reads forward and suppresses zero-size requests, over three frames:
a zero-size frame, a frame whose encoded reuse-distance is `-1`, and a further frame. -/
def example_reader : reader_t :=
  { lcs_ver := 2, item_size := 28, ignore_size_zero_req := true,
    read_direction := read_direction_t.READ_FORWARD,
    trace_type := trace_type_e.LCS_TRACE,
    trace_format := trace_format_e.BINARY_TRACE_FORMAT,
    trace_start_offset := 8192, obj_id_is_num := true,
    records := [{ clock_time := 1, obj_id := 7, obj_size := 0, next_access_vtime := 5,
                  tenant := 0, op := 0 },
                { clock_time := 2, obj_id := 8, obj_size := 100, next_access_vtime := -1,
                  tenant := 3, op := 1 },
                { clock_time := 3, obj_id := 9, obj_size := 50, next_access_vtime := 12,
                  tenant := 3, op := 1 }] }

/-- The reader after the five assignments of `lcsReader_setup` that follow the call of `verify`
(`lcs_ver`, `trace_type`, `trace_format`, `trace_start_offset`, `obj_id_is_num`). -/
def setup_assigned (k : lcs_h) (reader : reader_t) (header : lcs_trace_header_t) : reader_t :=
  { reader with lcs_ver := header.version,
                trace_type := trace_type_e.LCS_TRACE,
                trace_format := trace_format_e.BINARY_TRACE_FORMAT,
                trace_start_offset := k.sizeof_lcs_trace_header_t,
                obj_id_is_num := true }

/-- The reader `example_reader` with the suppression of zero-size requests switched off. -/
def example_reader_keep : reader_t := { example_reader with ignore_size_zero_req := false }

/-- A value of the constants of `lcs.h`: equal magic numbers, highest version 3, a header of
8192 bytes and record frames of 24, 28 and 32 bytes. -/
def example_lcs_h : lcs_h :=
  { LCS_TRACE_START_MAGIC := 0x123456789abcdef0, LCS_TRACE_END_MAGIC := 0x123456789abcdef0,
    MAX_LCS_VERSION := 3, sizeof_lcs_trace_header_t := 8192, sizeof_lcs_req_v1_t := 24,
    sizeof_lcs_req_v2_t := 28, sizeof_lcs_req_v3_t := 32 }

/-- A header that `verify` accepts under `example_lcs_h`, of version 2. -/
def example_header : lcs_trace_header_t :=
  { start_magic := 0x123456789abcdef0, version := 2, stat := { n_req := 1000, n_obj := 10 },
    end_magic := 0x123456789abcdef0 }

/-- A reader on which `lcsReader_setup` has not run yet. -/
def example_reader_unset : reader_t :=
  { example_reader with lcs_ver := 0, item_size := 0,
                        trace_type := trace_type_e.OTHER_TRACE,
                        trace_format := trace_format_e.OTHER_TRACE_FORMAT,
                        trace_start_offset := 0, obj_id_is_num := false }

/-- A suppressing forward reader of version 2 whose two remaining frames both have size 0. -/
def example_reader_zero : reader_t :=
  { example_reader with
    records := [{ clock_time := 1, obj_id := 7, obj_size := 0, next_access_vtime := 5,
                  tenant := 0, op := 0 },
                { clock_time := 2, obj_id := 8, obj_size := 0, next_access_vtime := 6,
                  tenant := 0, op := 0 }] }

/-- The cache `example_cache` in which the record `A` at the tail (pointer 0, hotness 2)
carries the reserved value `INT64_MAX` as its next-access virtual time. -/
def example_cache_oracle : cache_t :=
  { example_cache with
    heap := [some { obj_id := 10, obj_size := 5, freq := 2, next_access_vtime := INT64_MAX },
             some { obj_id := 20, obj_size := 7, freq := 1, next_access_vtime := 0 },
             some { obj_id := 30, obj_size := 9, freq := 1, next_access_vtime := 0 }] }

/-- The reader `example_reader` as a version-1 reader, with the frame size of version 1. -/
def example_reader_v1 : reader_t := { example_reader with lcs_ver := 1, item_size := 24 }

/-- A request whose prior content has tenant id 7 and operation code 3. -/
def example_req_prior : request_t := { mk_req 0 0 with tenant_id := 7, op := 3 }

/-- A cache with queue `[X, Y]`: `X` (pointer 0) has hotness 3 and carries the reserved value
`INT64_MAX` as its next-access virtual time, the tail `Y` (pointer 1) has hotness 2 and a finite
next-access virtual time. -/
def example_cache_oracle_mid : cache_t :=
  { heap := [some { obj_id := 10, obj_size := 5, freq := 3, next_access_vtime := INT64_MAX },
             some { obj_id := 20, obj_size := 7, freq := 2, next_access_vtime := 0 }],
    hashtable := [1, 0], q := [0, 1], n_obj := 2, occupied_byte := 12 }

/-! ## The arena -/

theorem heap_read_lt {h : List (Option cache_obj_t)} {p : Nat} {o : cache_obj_t}
    (hr : heap_read h p = some o) : p < h.length := by
  by_contra hlt
  have hnone : h[p]? = none := List.getElem?_eq_none (Nat.le_of_not_lt hlt)
  simp [heap_read, hnone] at hr

theorem heap_read_set_some (h : List (Option cache_obj_t)) (p p' : Nat) (o : cache_obj_t)
    (hp : p < h.length) :
    heap_read (h.set p (some o)) p' = if p' = p then some o else heap_read h p' := by
  by_cases hpp : p' = p
  · subst hpp
    simp [heap_read, List.getElem?_set_self, hp]
  · have hne : p ≠ p' := fun e => hpp e.symm
    simp [heap_read, List.getElem?_set_ne hne, hpp]

theorem heap_read_set_none (h : List (Option cache_obj_t)) (p p' : Nat) :
    heap_read (h.set p none) p' = if p' = p then none else heap_read h p' := by
  by_cases hpp : p' = p
  · subst hpp
    by_cases hp : p' < h.length
    · simp [heap_read, List.getElem?_set_self, hp]
    · have hnone : (h.set p' none)[p']? = none :=
        List.getElem?_eq_none (by simpa using Nat.le_of_not_lt hp)
      simp [heap_read, hnone]
  · have hne : p ≠ p' := fun e => hpp e.symm
    simp [heap_read, List.getElem?_set_ne hne, hpp]

theorem heap_read_append (h : List (Option cache_obj_t)) (o : cache_obj_t) (p' : Nat) :
    heap_read (h ++ [some o]) p' = if p' = h.length then some o else heap_read h p' := by
  by_cases hpp : p' = h.length
  · subst hpp
    simp [heap_read]
  · rcases Nat.lt_or_gt_of_ne hpp with hlt | hgt
    · simp [heap_read, List.getElem?_append_left hlt, hpp]
    · have h1 : (h ++ [some o])[p']? = none :=
        List.getElem?_eq_none (by simp; omega)
      have h2 : h[p']? = none := List.getElem?_eq_none (by omega)
      simp [heap_read, h1, h2, hpp]

theorem heap_read_modify (h : List (Option cache_obj_t)) (p p' : Nat)
    (f : cache_obj_t → cache_obj_t) :
    heap_read (heap_modify h p f) p'
      = if p' = p then (heap_read h p).map f else heap_read h p' := by
  unfold heap_modify
  cases hr : heap_read h p with
  | none =>
    by_cases hpp : p' = p
    · subst hpp; simp [hr]
    · simp [hpp]
  | some o =>
    simp only [heap_read_set_some h p p' (f o) (heap_read_lt hr), Option.map_some']

/-! ## C1: the eviction order of the two reference scenarios -/

/-- C1. From the empty cache, with `A`, `B`, `C` requests of pairwise distinct ids (their
records are the pointers 0, 1, 2):
(1) after inserting `A`, `B`, `C` with no hit the queue is `[C, B, A]`, and one
`FIFO_Reinsertion_evict` evicts `A` (the output slot holds `A`, and `A` is destroyed) and leaves
the queue `[C, B]`;
(2) after inserting `A`, one hit on `A` with the update flag (hotness 2), then inserting `B` and
`C`, one `FIFO_Reinsertion_evict` evicts `B` and leaves the queue `[A, C]` with the hotness of
`A` reset to 1. -/
theorem C1_eviction_order (A B C : request_t) (hAB : A.obj_id ≠ B.obj_id)
    (hAC : A.obj_id ≠ C.obj_id) (hBC : B.obj_id ≠ C.obj_id) (fuel : Nat) :
    (do
      let (s1, a) ← FIFO_Reinsertion_insert empty_cache A
      let (s2, b) ← FIFO_Reinsertion_insert s1 B
      let (s3, c) ← FIFO_Reinsertion_insert s2 C
      let (s4, slot) ← FIFO_Reinsertion_evict false (fuel + 1) s3 true
      pure (a, b, c, s3.q, slot, s4.q, s4.hashtable, heap_read s4.heap a))
    = some (0, 1, 2, [2, 1, 0],
        some { obj_id := A.obj_id, obj_size := A.obj_size, freq := 1,
               next_access_vtime := A.next_access_vtime },
        [2, 1], [2, 1], none)
    ∧
    (do
      let (s1, a) ← FIFO_Reinsertion_insert empty_cache A
      let (hit, s1h) := FIFO_Reinsertion_check s1 A true
      let (s2, b) ← FIFO_Reinsertion_insert s1h B
      let (s3, c) ← FIFO_Reinsertion_insert s2 C
      let (s4, slot) ← FIFO_Reinsertion_evict false (fuel + 2) s3 true
      pure (a, b, c, hit, (heap_read s1h.heap a).map (fun o => o.freq), s3.q, slot, s4.q,
            s4.hashtable, heap_read s4.heap b, (heap_read s4.heap a).map (fun o => o.freq)))
    = some (0, 1, 2, true, some 2, [2, 1, 0],
        some { obj_id := B.obj_id, obj_size := B.obj_size, freq := 1,
               next_access_vtime := B.next_access_vtime },
        [0, 2], [2, 0], none, some 1) := by
  have hBA := hAB.symm
  have hCA := hAC.symm
  have hCB := hBC.symm
  constructor
  · simp [FIFO_Reinsertion_insert, cache_insert_base, hashtable_find_obj_id, heap_read,
      heap_modify, prepend_obj_to_head, empty_cache, FIFO_Reinsertion_evict,
      FIFO_Reinsertion_to_evict, q_tail, keep_scanning, remove_obj_from_list,
      cache_evict_base, cache_remove_obj_base, hAB, hAC, hBC, hBA, hCA, hCB]
  · simp [FIFO_Reinsertion_insert, cache_insert_base, hashtable_find_obj_id, heap_read,
      heap_modify, prepend_obj_to_head, empty_cache, FIFO_Reinsertion_evict,
      FIFO_Reinsertion_to_evict, q_tail, keep_scanning, remove_obj_from_list,
      cache_evict_base, cache_remove_obj_base, FIFO_Reinsertion_check, cache_check_base,
      move_obj_to_head, hAB, hAC, hBC, hBA, hCA, hCB]
    rfl

/-- Witness of C1 at the ids 10, 20, 30, with the fuel of exactly one, respectively two,
evaluations of the loop condition. -/
theorem C1_eviction_order_witness :
    ((mk_req 10 5).obj_id ≠ (mk_req 20 7).obj_id ∧ (mk_req 10 5).obj_id ≠ (mk_req 30 9).obj_id
      ∧ (mk_req 20 7).obj_id ≠ (mk_req 30 9).obj_id) ∧
    ((do
      let (s1, a) ← FIFO_Reinsertion_insert empty_cache (mk_req 10 5)
      let (s2, b) ← FIFO_Reinsertion_insert s1 (mk_req 20 7)
      let (s3, c) ← FIFO_Reinsertion_insert s2 (mk_req 30 9)
      let (s4, slot) ← FIFO_Reinsertion_evict false (0 + 1) s3 true
      pure (a, b, c, s3.q, slot, s4.q, s4.hashtable, heap_read s4.heap a))
    = some (0, 1, 2, [2, 1, 0],
        some { obj_id := 10, obj_size := 5, freq := 1, next_access_vtime := 0 },
        [2, 1], [2, 1], none)
    ∧
    (do
      let (s1, a) ← FIFO_Reinsertion_insert empty_cache (mk_req 10 5)
      let (hit, s1h) := FIFO_Reinsertion_check s1 (mk_req 10 5) true
      let (s2, b) ← FIFO_Reinsertion_insert s1h (mk_req 20 7)
      let (s3, c) ← FIFO_Reinsertion_insert s2 (mk_req 30 9)
      let (s4, slot) ← FIFO_Reinsertion_evict false (0 + 2) s3 true
      pure (a, b, c, hit, (heap_read s1h.heap a).map (fun o => o.freq), s3.q, slot, s4.q,
            s4.hashtable, heap_read s4.heap b, (heap_read s4.heap a).map (fun o => o.freq)))
    = some (0, 1, 2, true, some 2, [2, 1, 0],
        some { obj_id := 20, obj_size := 7, freq := 1, next_access_vtime := 0 },
        [0, 2], [2, 0], none, some 1)) :=
  ⟨by decide,
   C1_eviction_order (mk_req 10 5) (mk_req 20 7) (mk_req 30 9) (by decide) (by decide)
     (by decide) 0⟩

/-! ## The scan of `FIFO_Reinsertion_to_evict` -/

theorem heap_read_reset_all (h : List (Option cache_obj_t)) (hs : List Nat) (p : Nat) :
    heap_read (reset_all h hs) p
      = if p ∈ hs then (heap_read h p).map (fun o => { o with freq := 1 })
        else heap_read h p := by
  induction hs with
  | nil => simp [reset_all]
  | cons x xs ih =>
    have hstep : reset_all h (x :: xs)
        = heap_modify (reset_all h xs) x (fun o => { o with freq := 1 }) := rfl
    rw [hstep, heap_read_modify]
    by_cases hpx : p = x
    · subst hpx
      rw [ih]
      by_cases hmem : p ∈ xs
      · cases hr : heap_read h p <;> simp [hmem, hr]
      · simp [hmem]
    · simp only [hpx, if_false, ih, List.mem_cons, false_or]

theorem queue_split (P : Nat → Bool) (l : List Nat) :
    ∃ pre hs, l = pre ++ hs ∧ (∀ p ∈ hs, P p = true) ∧
      (pre = [] ∨ ∃ pre' v, pre = pre' ++ [v] ∧ P v = false) := by
  induction l using List.reverseRecOn with
  | nil => exact ⟨[], [], rfl, by simp, Or.inl rfl⟩
  | append_singleton l' x ih =>
    by_cases hx : P x = true
    · obtain ⟨pre, hs, hl, hhot, hpre⟩ := ih
      refine ⟨pre, hs ++ [x], by simp [hl], ?_, hpre⟩
      intro p hp
      rcases List.mem_append.1 hp with h1 | h1
      · exact hhot p h1
      · simpa [List.mem_singleton.1 h1] using hx
    · exact ⟨l' ++ [x], [], by simp, by simp, Or.inr ⟨l', x, rfl, by simpa using hx⟩⟩

theorem to_evict_stop (b : Bool) (fuel : Nat) (c : cache_t) (v : Nat) (o : cache_obj_t)
    (ht : c.q.getLast? = some v) (hr : heap_read c.heap v = some o)
    (hk : keep_scanning b o = false) :
    FIFO_Reinsertion_to_evict b (fuel + 1) c = some (c, v, 0) := by
  simp [FIFO_Reinsertion_to_evict, q_tail, ht, hr, hk]

theorem to_evict_step (b : Bool) (fuel : Nat) (c : cache_t) (pre : List Nat) (x : Nat)
    (hq : c.q = pre ++ [x]) (hnd : c.q.Nodup) (hk : scan_keeps b c.heap x = true) :
    FIFO_Reinsertion_to_evict b (fuel + 1) c
      = (FIFO_Reinsertion_to_evict b fuel
          { c with heap := heap_modify c.heap x (fun o => { o with freq := 1 }),
                   q := x :: pre }).map (fun r => (r.1, r.2.1, r.2.2 + 1)) := by
  have hx : x ∉ pre := by
    rw [hq] at hnd
    have := List.nodup_append.1 hnd
    intro hmem
    exact this.2.2 hmem (List.mem_singleton_self x)
  have herase : (pre ++ [x]).erase x = pre := by
    rw [List.erase_append_right _ hx]; simp
  unfold scan_keeps at hk
  cases hr : heap_read c.heap x with
  | none => simp [hr] at hk
  | some o =>
    simp only [hr] at hk
    have hlast : (pre ++ [x]).getLast? = some x := by simp
    simp only [FIFO_Reinsertion_to_evict, q_tail, hq, hlast, hr, hk,
      move_obj_to_head, prepend_obj_to_head, remove_obj_from_list, herase, if_true]
    cases FIFO_Reinsertion_to_evict b fuel
        { c with heap := heap_modify c.heap x (fun o => { o with freq := 1 }),
                 q := x :: pre } with
    | none => rfl
    | some r => rfl

theorem to_evict_hot_suffix (b : Bool) (hs : List Nat) :
    ∀ (pre : List Nat) (c : cache_t) (fuel : Nat), c.q = pre ++ hs → c.q.Nodup →
      (∀ p ∈ hs, scan_keeps b c.heap p = true) →
      FIFO_Reinsertion_to_evict b (fuel + hs.length) c
        = (FIFO_Reinsertion_to_evict b fuel
            { c with heap := reset_all c.heap hs, q := hs ++ pre }).map
            (fun r => (r.1, r.2.1, r.2.2 + hs.length)) := by
  induction hs using List.reverseRecOn with
  | nil =>
    intro pre c fuel hq _ _
    have hc : ({ c with heap := reset_all c.heap [], q := [] ++ pre } : cache_t) = c := by
      cases c; simp_all [reset_all]
    rw [hc]
    show FIFO_Reinsertion_to_evict b fuel c
      = (FIFO_Reinsertion_to_evict b fuel c).map (fun r => (r.1, r.2.1, r.2.2 + 0))
    cases FIFO_Reinsertion_to_evict b fuel c with
    | none => rfl
    | some r => rfl
  | append_singleton hs' x ih =>
    intro pre c fuel hq hnd hhot
    have hlen : fuel + (hs' ++ [x]).length = (fuel + hs'.length) + 1 := by simp; omega
    have hq' : c.q = (pre ++ hs') ++ [x] := by simp [hq]
    rw [hlen, to_evict_step b _ c (pre ++ hs') x hq' hnd (hhot x (by simp))]
    have hnd' : (x :: (pre ++ hs')).Nodup := by
      rw [hq'] at hnd
      have := List.nodup_append.1 hnd
      refine List.nodup_cons.2 ⟨fun hmem => this.2.2 hmem (List.mem_singleton_self x), this.1⟩
    have hxhs : ∀ p ∈ hs', p ≠ x := by
      intro p hp hpx
      have := (List.nodup_cons.1 hnd').1
      exact this (by rw [← hpx]; exact List.mem_append_right _ hp)
    rw [ih (x :: pre) _ fuel (by simp) (by simpa using hnd')]
    · have hreset : reset_all c.heap (hs' ++ [x])
          = reset_all (heap_modify c.heap x (fun o => { o with freq := 1 })) hs' := by
        simp [reset_all, List.foldr_append]
      simp only [hreset, List.append_assoc, List.singleton_append, Option.map_map]
      congr 1
      funext r
      simp [Function.comp, Nat.add_assoc]
    · intro p hp
      have := hhot p (by simp [hp])
      simpa [scan_keeps, heap_read_modify, hxhs p hp] using this

theorem keep_scanning_reset (b : Bool) (o : cache_obj_t) :
    keep_scanning b { o with freq := 1 } = false := by
  cases b <;> simp [keep_scanning]

theorem to_evict_result (b : Bool) (c : cache_t) (hok : queue_ok c) (hne : c.q ≠ []) :
    ∃ pre hs v, c.q = pre ++ hs ∧ (∀ p ∈ hs, scan_keeps b c.heap p = true) ∧
      (pre = [] ∨ ∃ pre', pre = pre' ++ [v] ∧ scan_keeps b c.heap v = false) ∧
      (hs ++ pre).getLast? = some v ∧
      ∀ fuel, hs.length < fuel →
        FIFO_Reinsertion_to_evict b fuel c
          = some ({ c with heap := reset_all c.heap hs, q := hs ++ pre }, v, hs.length) := by
  obtain ⟨hnd, hlive⟩ := hok
  obtain ⟨pre, hs, hq, hhot, hpre⟩ := queue_split (scan_keeps b c.heap) c.q
  have key : ∀ v o, (hs ++ pre).getLast? = some v →
      heap_read (reset_all c.heap hs) v = some o → keep_scanning b o = false →
      ∀ fuel, hs.length < fuel →
        FIFO_Reinsertion_to_evict b fuel c
          = some ({ c with heap := reset_all c.heap hs, q := hs ++ pre }, v, hs.length) := by
    intro v o hlast hr hk fuel hfuel
    obtain ⟨f, rfl⟩ : ∃ f, fuel = (f + 1) + hs.length := ⟨fuel - hs.length - 1, by omega⟩
    rw [to_evict_hot_suffix b hs pre c (f + 1) hq hnd hhot,
      to_evict_stop b f _ v o hlast hr hk]
    simp
  rcases hpre with hnil | ⟨pre', v, hpre', hcold⟩
  · subst hnil
    have hsne : hs ≠ [] := by simpa [hq] using hne
    obtain ⟨v, hv⟩ : ∃ v, hs.getLast? = some v :=
      ⟨hs.getLast hsne, List.getLast?_eq_getLast hs hsne⟩
    have hvmem : v ∈ hs := List.mem_of_getLast?_eq_some hv
    have hvq : v ∈ c.q := by simp [hq, hvmem]
    obtain ⟨o, ho⟩ := Option.isSome_iff_exists.1 (hlive v hvq)
    refine ⟨[], hs, v, hq, hhot, Or.inl rfl, by simpa using hv, ?_⟩
    refine key v { o with freq := 1 } (by simpa using hv) ?_ (keep_scanning_reset b o)
    simp [heap_read_reset_all, hvmem, ho]
  · subst hpre'
    have hvq : v ∈ c.q := by simp [hq]
    obtain ⟨o, ho⟩ := Option.isSome_iff_exists.1 (hlive v hvq)
    have hvhs : v ∉ hs := by
      rw [hq] at hnd
      intro hmem
      exact (List.nodup_append.1 hnd).2.2 (by simp) hmem
    have hlast : (hs ++ (pre' ++ [v])).getLast? = some v := by
      rw [← List.append_assoc]; simp
    refine ⟨pre' ++ [v], hs, v, hq, hhot, Or.inr ⟨pre', rfl, hcold⟩, hlast, ?_⟩
    refine key v o hlast ?_ ?_
    · simp [heap_read_reset_all, hvhs, ho]
    · simpa [scan_keeps, ho] using hcold

theorem scan_keeps_default (h : List (Option cache_obj_t)) (p : Nat) :
    scan_keeps false h p = true ↔ ∃ f, hotness h p = some f ∧ 1 < f := by
  unfold scan_keeps hotness
  cases heap_read h p <;> simp [keep_scanning]

theorem queue_ok_example : queue_ok example_cache := by
  unfold queue_ok example_cache
  refine ⟨by decide, ?_⟩
  intro p hp
  simp only [List.mem_cons, List.mem_singleton, List.not_mem_nil, or_false] at hp
  rcases hp with rfl | rfl | rfl <;> rfl

/-! ## C2: the victim of the scan -/

/-- C2. In the default build, on a well-formed non-empty queue, `FIFO_Reinsertion_to_evict`
returns (with any fuel above the queue length) the record `v` that is nearest the tail with
hotness at most 1 in the queue before the call: the queue was `front ++ v :: reinserted` with
every record of `reinserted` of hotness above 1; or, when every record has hotness above 1, it
returns the original tail and `reinserted` is the whole queue. Every record of `reinserted` has
hotness 1 on return, `v` has hotness at most 1 on return, and every record outside
`reinserted` is unchanged, its hotness included. -/
theorem C2_to_evict_victim (c : cache_t) (hok : queue_ok c) (hne : c.q ≠ []) :
    ∃ c' v k reinserted,
      (∀ fuel, c.q.length < fuel →
        FIFO_Reinsertion_to_evict false fuel c = some (c', v, k)) ∧
      ((∃ front, c.q = front ++ v :: reinserted ∧ ∃ f, hotness c.heap v = some f ∧ f ≤ 1) ∨
        (reinserted = c.q ∧ c.q.getLast? = some v)) ∧
      (∀ p ∈ reinserted, ∃ f, hotness c.heap p = some f ∧ 1 < f) ∧
      (∀ p ∈ reinserted, hotness c'.heap p = some 1) ∧
      (∃ f, hotness c'.heap v = some f ∧ f ≤ 1) ∧
      (∀ p, p ∉ reinserted → heap_read c'.heap p = heap_read c.heap p) := by
  obtain ⟨pre, hs, v, hq, hhot, hpre, hlast, hrun⟩ := to_evict_result false c hok hne
  have hhot' : ∀ p ∈ hs, ∃ f, hotness c.heap p = some f ∧ 1 < f :=
    fun p hp => (scan_keeps_default c.heap p).1 (hhot p hp)
  have hreset : ∀ p ∈ hs, hotness (reset_all c.heap hs) p = some 1 := by
    intro p hp
    obtain ⟨f, hf, -⟩ := hhot' p hp
    unfold hotness at hf ⊢
    rw [heap_read_reset_all]
    cases hr : heap_read c.heap p with
    | none => simp [hr] at hf
    | some o => simp [hp]
  refine ⟨{ c with heap := reset_all c.heap hs, q := hs ++ pre }, v, hs.length, hs, ?_, ?_,
    hhot', hreset, ?_, ?_⟩
  · intro fuel hfuel
    exact hrun fuel (by rw [hq] at hfuel; simp at hfuel; omega)
  · rcases hpre with hnil | ⟨pre', hpre', hcold⟩
    · subst hnil
      right
      simp only [List.nil_append] at hq
      exact ⟨hq.symm, by simpa [hq] using hlast⟩
    · left
      refine ⟨pre', by simp [hq, hpre'], ?_⟩
      have hv : (heap_read c.heap v).isSome = true := hok.2 v (by simp [hq, hpre'])
      obtain ⟨o, ho⟩ := Option.isSome_iff_exists.1 hv
      refine ⟨o.freq, by simp [hotness, ho], ?_⟩
      have : keep_scanning false o = false := by simpa [scan_keeps, ho] using hcold
      simpa [keep_scanning] using this
  · rcases hpre with hnil | ⟨pre', hpre', hcold⟩
    · subst hnil
      have hv : v ∈ hs := List.mem_of_getLast?_eq_some (by simpa using hlast)
      exact ⟨1, hreset v hv, le_refl 1⟩
    · have hvq : v ∈ c.q := by simp [hq, hpre']
      have hvhs : v ∉ hs := by
        have hnd := hok.1
        rw [hq, hpre'] at hnd
        intro hmem
        exact (List.nodup_append.1 hnd).2.2 (by simp) hmem
      obtain ⟨o, ho⟩ := Option.isSome_iff_exists.1 (hok.2 v hvq)
      refine ⟨o.freq, by simp [hotness, heap_read_reset_all, hvhs, ho], ?_⟩
      have : keep_scanning false o = false := by simpa [scan_keeps, ho] using hcold
      simpa [keep_scanning] using this
  · intro p hp
    simp [heap_read_reset_all, hp]

/-- Witness of C2 at the cache with queue `[C, B, A]` in which `A` has hotness 2. -/
theorem C2_to_evict_victim_witness :
    (queue_ok example_cache ∧ example_cache.q ≠ []) ∧
    ∃ c' v k reinserted,
      (∀ fuel, example_cache.q.length < fuel →
        FIFO_Reinsertion_to_evict false fuel example_cache = some (c', v, k)) ∧
      ((∃ front, example_cache.q = front ++ v :: reinserted ∧
          ∃ f, hotness example_cache.heap v = some f ∧ f ≤ 1) ∨
        (reinserted = example_cache.q ∧ example_cache.q.getLast? = some v)) ∧
      (∀ p ∈ reinserted, ∃ f, hotness example_cache.heap p = some f ∧ 1 < f) ∧
      (∀ p ∈ reinserted, hotness c'.heap p = some 1) ∧
      (∃ f, hotness c'.heap v = some f ∧ f ≤ 1) ∧
      (∀ p, p ∉ reinserted → heap_read c'.heap p = heap_read example_cache.heap p) :=
  ⟨⟨queue_ok_example, by decide⟩,
   C2_to_evict_victim example_cache queue_ok_example (by decide)⟩

/-! ## C3: the scan terminates within `n` reinsertions -/

/-- C3. In the default build (`USE_BELADY = false`) and in the oracle build
(`USE_BELADY = true`), on a well-formed non-empty queue of `n` records with arbitrary hotness
values, `FIFO_Reinsertion_to_evict` returns: there is a number `k` of reinsertions, at most `n`,
such that every run that may evaluate the loop condition more than `k` times returns a record
after exactly `k` moves to the head. -/
theorem C3_to_evict_terminates (USE_BELADY : Bool) (c : cache_t) (hok : queue_ok c)
    (hne : c.q ≠ []) :
    ∃ c' v k, k ≤ c.q.length ∧
      ∀ fuel, k < fuel → FIFO_Reinsertion_to_evict USE_BELADY fuel c = some (c', v, k) := by
  obtain ⟨pre, hs, v, hq, -, -, -, hrun⟩ := to_evict_result USE_BELADY c hok hne
  exact ⟨_, v, hs.length, by simp [hq], hrun⟩

/-- Witness of C3 at the cache with queue `[C, B, A]` in which `A` has hotness 2, in the oracle
build. -/
theorem C3_to_evict_terminates_witness :
    (queue_ok example_cache ∧ example_cache.q ≠ []) ∧
    ∃ c' v k, k ≤ example_cache.q.length ∧
      ∀ fuel, k < fuel → FIFO_Reinsertion_to_evict true fuel example_cache = some (c', v, k) :=
  ⟨⟨queue_ok_example, by decide⟩,
   C3_to_evict_terminates true example_cache queue_ok_example (by decide)⟩

/-! ## The coherence invariant -/

theorem to_evict_fuel_succ (b : Bool) (fuel : Nat) :
    ∀ (c : cache_t) (r : cache_t × Nat × Nat), FIFO_Reinsertion_to_evict b fuel c = some r →
      FIFO_Reinsertion_to_evict b (fuel + 1) c = some r := by
  induction fuel with
  | zero => intro c r h; simp [FIFO_Reinsertion_to_evict] at h
  | succ n ih =>
    intro c r h
    rw [FIFO_Reinsertion_to_evict] at h ⊢
    cases ht : q_tail c with
    | none => simp [ht] at h
    | some v =>
      simp only [ht] at h ⊢
      cases hr : heap_read c.heap v with
      | none => simp [hr] at h
      | some o =>
        simp only [hr] at h ⊢
        by_cases hk : keep_scanning b o = true
        · simp only [hk, if_true] at h ⊢
          cases hrec : FIFO_Reinsertion_to_evict b n
              { c with heap := heap_modify c.heap v (fun o => { o with freq := 1 }),
                       q := move_obj_to_head c.q v } with
          | none => simp [hrec] at h
          | some r' =>
            rw [hrec] at h
            rw [ih _ r' hrec]
            exact h
        · simpa only [hk] using h

theorem to_evict_fuel_le (b : Bool) (c : cache_t) (r : cache_t × Nat × Nat) (fuel fuel' : Nat)
    (hle : fuel ≤ fuel') (h : FIFO_Reinsertion_to_evict b fuel c = some r) :
    FIFO_Reinsertion_to_evict b fuel' c = some r := by
  induction hle with
  | refl => exact h
  | step _ ih => exact to_evict_fuel_succ b _ c r ih

theorem to_evict_some_nonempty (b : Bool) (fuel : Nat) (c : cache_t)
    (r : cache_t × Nat × Nat) (h : FIFO_Reinsertion_to_evict b fuel c = some r) :
    c.q ≠ [] := by
  intro hq
  cases fuel with
  | zero => simp [FIFO_Reinsertion_to_evict] at h
  | succ n => simp [FIFO_Reinsertion_to_evict, q_tail, hq] at h

theorem to_evict_any_fuel (b : Bool) (c : cache_t) (hok : queue_ok c) (fuel : Nat)
    (r : cache_t × Nat × Nat) (h : FIFO_Reinsertion_to_evict b fuel c = some r) :
    ∃ pre hs v, c.q = pre ++ hs ∧ (hs ++ pre).getLast? = some v ∧
      r = ({ c with heap := reset_all c.heap hs, q := hs ++ pre }, v, hs.length) := by
  obtain ⟨pre, hs, v, hq, -, -, hlast, hrun⟩ :=
    to_evict_result b c hok (to_evict_some_nonempty b fuel c r h)
  refine ⟨pre, hs, v, hq, hlast, ?_⟩
  have h1 := to_evict_fuel_le b c r fuel (max fuel (hs.length + 1)) (le_max_left _ _) h
  have h2 := hrun (max fuel (hs.length + 1)) (by omega)
  rw [h1] at h2
  exact Option.some.inj h2

theorem size_at_congr {h h' : List (Option cache_obj_t)} {p : Nat}
    (e : (heap_read h' p).map (fun o => o.obj_size) = (heap_read h p).map (fun o => o.obj_size)) :
    size_at h' p = size_at h p := by
  unfold size_at
  cases h1 : heap_read h' p <;> cases h2 : heap_read h p <;> simp_all

theorem isSome_congr {h h' : List (Option cache_obj_t)} {p : Nat}
    (e : (heap_read h' p).map (fun o => o.obj_size) = (heap_read h p).map (fun o => o.obj_size)) :
    (heap_read h' p).isSome = (heap_read h p).isSome := by
  cases h1 : heap_read h' p <;> cases h2 : heap_read h p <;> simp_all

theorem cache_inv_transfer (c c1 : cache_t) (hinv : cache_inv c)
    (hht : c1.hashtable = c.hashtable) (hq : c1.q.Perm c.q)
    (hsize : ∀ p, (heap_read c1.heap p).map (fun o => o.obj_size)
              = (heap_read c.heap p).map (fun o => o.obj_size))
    (hn : c1.n_obj = c.n_obj) (hb : c1.occupied_byte = c.occupied_byte) : cache_inv c1 where
  index_iff := fun p => by rw [hht, hinv.index_iff, hq.mem_iff]
  q_nodup := hq.nodup_iff.2 hinv.q_nodup
  ht_nodup := by rw [hht]; exact hinv.ht_nodup
  q_live := fun p hp => by
    rw [isSome_congr (hsize p)]
    exact hinv.q_live p (hq.mem_iff.1 hp)
  n_obj_eq := by rw [hn, hinv.n_obj_eq, hq.length_eq]
  bytes_eq := by
    rw [hb, hinv.bytes_eq]
    unfold resident_bytes
    have hfun : size_at c1.heap = size_at c.heap := funext fun p => size_at_congr (hsize p)
    rw [hfun]
    exact ((hq.map (size_at c.heap)).sum_eq).symm

theorem size_reset_all (h : List (Option cache_obj_t)) (hs : List Nat) (p : Nat) :
    (heap_read (reset_all h hs) p).map (fun o => o.obj_size)
      = (heap_read h p).map (fun o => o.obj_size) := by
  rw [heap_read_reset_all]
  by_cases hp : p ∈ hs
  · cases heap_read h p <;> simp [hp]
  · simp [hp]

theorem cache_inv_queue_ok {c : cache_t} (hinv : cache_inv c) : queue_ok c :=
  ⟨hinv.q_nodup, hinv.q_live⟩

theorem cache_inv_to_evict (b : Bool) (fuel : Nat) (c c1 : cache_t) (v k : Nat)
    (hinv : cache_inv c) (h : FIFO_Reinsertion_to_evict b fuel c = some (c1, v, k)) :
    cache_inv c1 ∧ v ∈ c1.q ∧ c1.n_obj = c.n_obj ∧ c1.occupied_byte = c.occupied_byte := by
  obtain ⟨pre, hs, v', hq, hlast, hr⟩ :=
    to_evict_any_fuel b c (cache_inv_queue_ok hinv) fuel _ h
  simp only [Prod.mk.injEq] at hr
  obtain ⟨rfl, rfl, rfl⟩ := hr
  refine ⟨cache_inv_transfer c _ hinv rfl ?_ (size_reset_all c.heap hs) rfl rfl,
    List.mem_of_getLast?_eq_some hlast, rfl, rfl⟩
  show (hs ++ pre).Perm c.q
  rw [hq]
  exact List.perm_append_comm

theorem cache_inv_remove (c : cache_t) (v : Nat) (hinv : cache_inv c) (hv : v ∈ c.q) :
    ∃ c1, cache_remove_obj_base { c with q := remove_obj_from_list c.q v } v true = some c1 ∧
      cache_inv c1 ∧ c1.q = c.q.erase v ∧ c1.hashtable = c.hashtable.erase v ∧
      c1.heap = c.heap.set v none ∧
      c1.n_obj = c.n_obj - 1 ∧ c1.occupied_byte = c.occupied_byte - size_at c.heap v := by
  obtain ⟨o, ho⟩ := Option.isSome_iff_exists.1 (hinv.q_live v hv)
  refine ⟨_, by simp only [cache_remove_obj_base, ho, if_true, remove_obj_from_list]; rfl,
    ?_, rfl, rfl, rfl, rfl, by simp [size_at, ho]⟩
  have hread : ∀ p, p ≠ v → heap_read (c.heap.set v none) p = heap_read c.heap p := by
    intro p hp
    rw [heap_read_set_none, if_neg hp]
  refine ⟨?_, ?_, ?_, ?_, ?_, ?_⟩
  · intro p
    show p ∈ c.hashtable.erase v ↔ p ∈ c.q.erase v
    rw [hinv.ht_nodup.mem_erase_iff, hinv.q_nodup.mem_erase_iff, hinv.index_iff]
  · exact hinv.q_nodup.erase v
  · exact hinv.ht_nodup.erase v
  · intro p hp
    have hp' : p ∈ c.q.erase v := hp
    rw [hinv.q_nodup.mem_erase_iff] at hp'
    show (heap_read (c.heap.set v none) p).isSome = true
    rw [hread p hp'.1]
    exact hinv.q_live p hp'.2
  · show c.n_obj - 1 = ((c.q.erase v).length : Int)
    rw [List.length_erase_of_mem hv, hinv.n_obj_eq]
    have : 0 < c.q.length := List.length_pos_of_mem hv
    omega
  · show c.occupied_byte - o.obj_size = ((c.q.erase v).map (size_at (c.heap.set v none))).sum
    have hmap : (c.q.erase v).map (size_at (c.heap.set v none))
        = (c.q.erase v).map (size_at c.heap) := by
      apply List.map_congr_left
      intro p hp
      rw [hinv.q_nodup.mem_erase_iff] at hp
      unfold size_at
      rw [hread p hp.1]
    have hsum := List.sum_map_erase (size_at c.heap) hv
    have hsz : size_at c.heap v = o.obj_size := by simp [size_at, ho]
    rw [hmap, hinv.bytes_eq]
    unfold resident_bytes
    rw [← hsum, hsz]
    ring

theorem find_obj_id_some {c : cache_t} {obj_id p : Nat}
    (h : hashtable_find_obj_id c obj_id = some p) :
    p ∈ c.hashtable ∧ ∃ o, heap_read c.heap p = some o ∧ o.obj_id = obj_id := by
  unfold hashtable_find_obj_id at h
  refine ⟨List.mem_of_find?_eq_some h, ?_⟩
  have hp := List.find?_some h
  cases hr : heap_read c.heap p with
  | none => simp [hr] at hp
  | some o => exact ⟨o, rfl, by simpa [hr] using hp⟩

theorem insert_result (c : cache_t) (req : request_t)
    (hfind : hashtable_find_obj_id c req.obj_id = none) :
    ∃ c1, FIFO_Reinsertion_insert c req = some (c1, c.heap.length) ∧
      c1.q = c.heap.length :: c.q ∧ c1.hashtable = c.heap.length :: c.hashtable ∧
      c1.n_obj = c.n_obj + 1 ∧ c1.occupied_byte = c.occupied_byte + req.obj_size ∧
      ∀ p, heap_read c1.heap p
        = if p = c.heap.length then
            some { obj_id := req.obj_id, obj_size := req.obj_size, freq := 1,
                   next_access_vtime := req.next_access_vtime }
          else heap_read c.heap p := by
  refine ⟨_, by simp only [FIFO_Reinsertion_insert, cache_insert_base, hfind]; rfl,
    rfl, rfl, rfl, rfl, ?_⟩
  intro p
  show heap_read (heap_modify (c.heap ++ [some _]) c.heap.length _) p = _
  rw [heap_read_modify, heap_read_append, heap_read_append]
  by_cases hp : p = c.heap.length
  · simp [hp]
  · simp [hp]

theorem insert_some_fresh {c c1 : cache_t} {req : request_t} {obj : Nat}
    (h : FIFO_Reinsertion_insert c req = some (c1, obj)) :
    hashtable_find_obj_id c req.obj_id = none := by
  cases hf : hashtable_find_obj_id c req.obj_id with
  | none => rfl
  | some p => simp [FIFO_Reinsertion_insert, cache_insert_base, hf] at h

theorem check_result (c : cache_t) (req : request_t) (update_cache : Bool) :
    FIFO_Reinsertion_check c req update_cache
      = match hashtable_find_obj_id c req.obj_id with
        | none => (false, c)
        | some p => (true, { c with heap := heap_modify c.heap p
                                              (fun o => { o with freq := o.freq + 1 }) }) := by
  unfold FIFO_Reinsertion_check cache_check_base
  cases hashtable_find_obj_id c req.obj_id <;> rfl

theorem cache_inv_insert (c c1 : cache_t) (req : request_t) (obj : Nat) (hinv : cache_inv c)
    (h : FIFO_Reinsertion_insert c req = some (c1, obj)) : cache_inv c1 := by
  obtain ⟨c2, h2, hq, hht, hn, hb, hread⟩ := insert_result c req (insert_some_fresh h)
  rw [h] at h2
  simp only [Option.some.injEq, Prod.mk.injEq] at h2
  obtain ⟨rfl, rfl⟩ := h2
  have hfresh : c.heap.length ∉ c.q := by
    intro hmem
    obtain ⟨o, ho⟩ := Option.isSome_iff_exists.1 (hinv.q_live _ hmem)
    exact Nat.lt_irrefl _ (heap_read_lt ho)
  have hold : ∀ p ∈ c.q, heap_read c1.heap p = heap_read c.heap p := by
    intro p hp
    rw [hread, if_neg]
    rintro rfl
    exact hfresh hp
  refine ⟨?_, ?_, ?_, ?_, ?_, ?_⟩
  · intro p
    rw [hq, hht, List.mem_cons, List.mem_cons, hinv.index_iff]
  · rw [hq]
    exact List.nodup_cons.2 ⟨hfresh, hinv.q_nodup⟩
  · rw [hht]
    exact List.nodup_cons.2 ⟨fun hm => hfresh ((hinv.index_iff _).1 hm), hinv.ht_nodup⟩
  · intro p hp
    rw [hq, List.mem_cons] at hp
    rcases hp with rfl | hp
    · rw [hread]; simp
    · rw [hold p hp]; exact hinv.q_live p hp
  · rw [hn, hq, hinv.n_obj_eq]; simp
  · rw [hb, hinv.bytes_eq]
    unfold resident_bytes
    rw [hq, List.map_cons, List.sum_cons]
    have hnew : size_at c1.heap c.heap.length = req.obj_size := by
      unfold size_at; rw [hread]; simp
    have hmap : c.q.map (size_at c1.heap) = c.q.map (size_at c.heap) := by
      apply List.map_congr_left
      intro p hp
      unfold size_at
      rw [hold p hp]
    rw [hnew, hmap]
    ring

theorem cache_inv_check (c : cache_t) (req : request_t) (update_cache : Bool)
    (hinv : cache_inv c) : cache_inv (FIFO_Reinsertion_check c req update_cache).2 := by
  rw [check_result]
  cases hashtable_find_obj_id c req.obj_id with
  | none => exact hinv
  | some p =>
    refine cache_inv_transfer c _ hinv rfl (List.Perm.refl _) ?_ rfl rfl
    intro p'
    show (heap_read (heap_modify c.heap p _) p').map _ = _
    rw [heap_read_modify]
    by_cases hp : p' = p
    · subst hp
      cases heap_read c.heap p' <;> simp
    · simp [hp]

theorem cache_inv_evict (b : Bool) (fuel : Nat) (c c1 : cache_t) (evicted_obj : Bool)
    (slot : Option cache_obj_t) (hinv : cache_inv c)
    (h : FIFO_Reinsertion_evict b fuel c evicted_obj = some (c1, slot)) : cache_inv c1 := by
  unfold FIFO_Reinsertion_evict at h
  cases hte : FIFO_Reinsertion_to_evict b fuel c with
  | none => simp [hte] at h
  | some r =>
    obtain ⟨c2, v, k⟩ := r
    obtain ⟨hinv2, hv, -, -⟩ := cache_inv_to_evict b fuel c c2 v k hinv hte
    obtain ⟨c3, h3, hinv3, -⟩ := cache_inv_remove c2 v hinv2 hv
    simp only [hte, cache_evict_base, h3, Option.some.injEq, Prod.mk.injEq] at h
    rw [← h.1]
    exact hinv3

theorem cache_inv_remove_id (c c1 : cache_t) (obj_id : Nat) (found : Bool) (hinv : cache_inv c)
    (h : FIFO_Reinsertion_remove c obj_id = some (found, c1)) : cache_inv c1 := by
  unfold FIFO_Reinsertion_remove at h
  cases hf : hashtable_find_obj_id c obj_id with
  | none =>
    simp only [hf, Option.some.injEq, Prod.mk.injEq] at h
    rw [← h.2]
    exact hinv
  | some p =>
    have hp : p ∈ c.q := (hinv.index_iff p).1 (find_obj_id_some hf).1
    obtain ⟨c3, h3, hinv3, -⟩ := cache_inv_remove c p hinv hp
    simp only [hf, FIFO_Reinsertion_remove_obj, h3, Option.some.injEq, Prod.mk.injEq] at h
    rw [← h.2]
    exact hinv3

theorem cache_inv_empty : cache_inv empty_cache :=
  ⟨fun _ => Iff.rfl, List.nodup_nil, List.nodup_nil, fun _ hp => (by cases hp), rfl, rfl⟩

theorem reachable_inv (b : Bool) (c : cache_t) (h : reachable b c) : cache_inv c := by
  induction h with
  | init => exact cache_inv_empty
  | insert c c1 req obj _ _ hins ih => exact cache_inv_insert c c1 req obj ih hins
  | check c req u _ ih => exact cache_inv_check c req u ih
  | evict c c1 fuel e slot _ _ hev ih => exact cache_inv_evict b fuel c c1 e slot ih hev
  | remove c c1 id found _ hrm ih => exact cache_inv_remove_id c c1 id found ih hrm

theorem find_obj_id_isSome (c : cache_t) (obj_id : Nat) :
    (hashtable_find_obj_id c obj_id).isSome = true ↔
      ∃ p ∈ c.hashtable, ∃ o, heap_read c.heap p = some o ∧ o.obj_id = obj_id := by
  unfold hashtable_find_obj_id
  rw [List.find?_isSome]
  constructor
  · rintro ⟨p, hp, hpred⟩
    cases hr : heap_read c.heap p with
    | none => simp [hr] at hpred
    | some o => exact ⟨p, hp, o, hr, by simpa [hr] using hpred⟩
  · rintro ⟨p, hp, o, ho, hid⟩
    exact ⟨p, hp, by simp [ho, hid]⟩

/-! ## C4: index and queue are coherent in every reachable state -/

/-- C4. In every reachable state (from the initial empty cache, by insert of a non-resident id,
check, evict on a non-empty cache, and remove; in either build): a record is in the index iff it
is in the eviction queue (as a record, and also as an id that the index finds), a record of the
queue occurs in it exactly once, the object count is the queue length, and the occupied bytes
are the sum of the sizes of the resident records. -/
theorem C4_reachable_coherence (USE_BELADY : Bool) (c : cache_t)
    (h : reachable USE_BELADY c) :
    (∀ p, p ∈ c.hashtable ↔ p ∈ c.q) ∧
    (∀ obj_id, (hashtable_find_obj_id c obj_id).isSome = true ↔
      ∃ p ∈ c.q, ∃ o, heap_read c.heap p = some o ∧ o.obj_id = obj_id) ∧
    (∀ p ∈ c.q, c.q.count p = 1) ∧
    c.n_obj = c.q.length ∧
    c.occupied_byte = resident_bytes c := by
  have hinv := reachable_inv USE_BELADY c h
  refine ⟨hinv.index_iff, ?_, fun p hp => List.count_eq_one_of_mem hinv.q_nodup hp,
    hinv.n_obj_eq, hinv.bytes_eq⟩
  intro obj_id
  rw [find_obj_id_isSome]
  constructor
  · rintro ⟨p, hp, rest⟩
    exact ⟨p, (hinv.index_iff p).1 hp, rest⟩
  · rintro ⟨p, hp, rest⟩
    exact ⟨p, (hinv.index_iff p).2 hp, rest⟩

/-- Witness of C4 at the state reached by one insert and one check. -/
theorem C4_reachable_coherence_witness :
    reachable false
      { heap := [some { obj_id := 10, obj_size := 5, freq := 2, next_access_vtime := 0 }],
        hashtable := [0], q := [0], n_obj := 1, occupied_byte := 5 } ∧
    ((1 : Int) = ([0] : List Nat).length ∧
      (5 : Int) = resident_bytes
        { heap := [some { obj_id := 10, obj_size := 5, freq := 2, next_access_vtime := 0 }],
          hashtable := [0], q := [0], n_obj := 1, occupied_byte := 5 }) :=
  have hr : reachable false
      { heap := [some { obj_id := 10, obj_size := 5, freq := 2, next_access_vtime := 0 }],
        hashtable := [0], q := [0], n_obj := 1, occupied_byte := 5 } :=
    reachable.check _ (mk_req 10 5) true
      (reachable.insert empty_cache _ (mk_req 10 5) 0 reachable.init rfl rfl)
  ⟨hr, (C4_reachable_coherence false _ hr).2.2.2⟩

/-! ## C5: a hit with the update flag -/

/-- C5. `FIFO_Reinsertion_check` with the update flag set. When the id of the request is
resident (the index gives the record `p`): it returns hit, the hotness of `p` is increased by
exactly 1 and no other field of `p` changes, and the queue, every other record, the index, the
occupied bytes and the object count are unchanged. When the id is not resident: it returns miss
and the cache state is unchanged. -/
theorem C5_check_with_update (c : cache_t) (req : request_t) :
    (∀ p, hashtable_find_obj_id c req.obj_id = some p →
      ∃ o c', heap_read c.heap p = some o ∧ o.obj_id = req.obj_id ∧
        FIFO_Reinsertion_check c req true = (true, c') ∧
        heap_read c'.heap p = some { o with freq := o.freq + 1 } ∧
        c'.q = c.q ∧ c'.hashtable = c.hashtable ∧
        (∀ p', p' ≠ p → heap_read c'.heap p' = heap_read c.heap p') ∧
        c'.occupied_byte = c.occupied_byte ∧ c'.n_obj = c.n_obj) ∧
    (hashtable_find_obj_id c req.obj_id = none →
      FIFO_Reinsertion_check c req true = (false, c)) := by
  constructor
  · intro p hp
    obtain ⟨-, o, ho, hid⟩ := find_obj_id_some hp
    refine ⟨o, { c with heap := heap_modify c.heap p (fun o => { o with freq := o.freq + 1 }) },
      ho, hid, by rw [check_result, hp], ?_, rfl, rfl, ?_, rfl, rfl⟩
    · show heap_read (heap_modify c.heap p _) p = _
      rw [heap_read_modify, if_pos rfl, ho]
      rfl
    · intro p' hp'
      show heap_read (heap_modify c.heap p _) p' = _
      rw [heap_read_modify, if_neg hp']
  · intro hnone
    rw [check_result, hnone]

/-- Witness of C5 at the cache with queue `[C, B, A]`: a request for `B` (id 20) is a hit that
raises the hotness of `B` from 1 to 2, a request for id 40 is a miss. -/
theorem C5_check_with_update_witness :
    (hashtable_find_obj_id example_cache (mk_req 20 7).obj_id = some 1 ∧
      hotness (FIFO_Reinsertion_check example_cache (mk_req 20 7) true).2.heap 1 = some 2) ∧
    (hashtable_find_obj_id example_cache (mk_req 40 1).obj_id = none ∧
      FIFO_Reinsertion_check example_cache (mk_req 40 1) true = (false, example_cache)) :=
  ⟨⟨by decide, by
      obtain ⟨o, c', ho, -, hc, hr, -⟩ :=
        (C5_check_with_update example_cache (mk_req 20 7)).1 1 (by decide)
      have ho' : o = { obj_id := 20, obj_size := 7, freq := 1, next_access_vtime := 0 } := by
        have : heap_read example_cache.heap 1
            = some { obj_id := 20, obj_size := 7, freq := 1, next_access_vtime := 0 } := by
          decide
        rw [this] at ho
        exact (Option.some.inj ho).symm
      rw [hc]
      simp only [hotness, hr, ho']
      rfl⟩,
   ⟨by decide, (C5_check_with_update example_cache (mk_req 40 1)).2 (by decide)⟩⟩

/-! ## C6: a hit without the update flag -/

/-- The source passes `update_cache` on to the base check and does not look at it again: the
result of `FIFO_Reinsertion_check` does not depend on the flag. -/
theorem check_ignores_update_cache (c : cache_t) (req : request_t) (update_cache : Bool) :
    FIFO_Reinsertion_check c req update_cache = FIFO_Reinsertion_check c req true := by
  rw [check_result, check_result]

/-- C6, evaluated at the failing input. On the cache with queue `[C, B, A]`, in which `B`
(pointer 1, id 20) has hotness 1, `FIFO_Reinsertion_check` for id 20 with
`update_cache = false` returns hit and leaves `B` with hotness 2: the increment is performed
although the update flag is not set. -/
theorem C6_check_without_update_increments :
    hotness example_cache.heap 1 = some 1 ∧
    (FIFO_Reinsertion_check example_cache (mk_req 20 7) false).1 = true ∧
    hotness (FIFO_Reinsertion_check example_cache (mk_req 20 7) false).2.heap 1 = some 2 := by
  decide

/-! ## C7: insertion -/

/-- C7. On a well-formed queue and for a request whose id is not resident,
`FIFO_Reinsertion_insert` returns a new record `obj` (one that was not in the queue); it is the
head of the queue, with the id and size of the request and hotness exactly 1; the previously
resident records follow it in their previous order, every other record is unchanged (its
hotness included), the object count has increased by 1 and the occupied bytes by the size of the
request. -/
theorem C7_insert (c : cache_t) (req : request_t) (hok : queue_ok c)
    (hfresh : hashtable_find_obj_id c req.obj_id = none) :
    ∃ c' obj, FIFO_Reinsertion_insert c req = some (c', obj) ∧
      obj ∉ c.q ∧ c'.q = obj :: c.q ∧ q_head c' = some obj ∧
      heap_read c'.heap obj
        = some { obj_id := req.obj_id, obj_size := req.obj_size, freq := 1,
                 next_access_vtime := req.next_access_vtime } ∧
      hotness c'.heap obj = some 1 ∧
      (∀ p, p ≠ obj → heap_read c'.heap p = heap_read c.heap p) ∧
      (∀ p ∈ c.q, hotness c'.heap p = hotness c.heap p) ∧
      c'.n_obj = c.n_obj + 1 ∧
      c'.occupied_byte = c.occupied_byte + req.obj_size := by
  obtain ⟨c1, h1, hq, -, hn, hb, hread⟩ := insert_result c req hfresh
  have hnew : c.heap.length ∉ c.q := by
    intro hmem
    obtain ⟨o, ho⟩ := Option.isSome_iff_exists.1 (hok.2 _ hmem)
    exact Nat.lt_irrefl _ (heap_read_lt ho)
  have hother : ∀ p, p ≠ c.heap.length → heap_read c1.heap p = heap_read c.heap p := by
    intro p hp
    rw [hread, if_neg hp]
  refine ⟨c1, c.heap.length, h1, hnew, hq, by simp [q_head, hq], by rw [hread, if_pos rfl],
    by simp [hotness, hread], hother, ?_, hn, hb⟩
  intro p hp
  unfold hotness
  rw [hother p (fun e => hnew (e ▸ hp))]

/-- Witness of C7: inserting id 40 of 3 bytes into the cache with queue `[C, B, A]`. -/
theorem C7_insert_witness :
    (queue_ok example_cache ∧ hashtable_find_obj_id example_cache (mk_req 40 3).obj_id = none) ∧
    ∃ c' obj, FIFO_Reinsertion_insert example_cache (mk_req 40 3) = some (c', obj) ∧
      obj ∉ example_cache.q ∧ c'.q = obj :: example_cache.q ∧ q_head c' = some obj ∧
      heap_read c'.heap obj
        = some { obj_id := (mk_req 40 3).obj_id, obj_size := (mk_req 40 3).obj_size, freq := 1,
                 next_access_vtime := (mk_req 40 3).next_access_vtime } ∧
      hotness c'.heap obj = some 1 ∧
      (∀ p, p ≠ obj → heap_read c'.heap p = heap_read example_cache.heap p) ∧
      (∀ p ∈ example_cache.q, hotness c'.heap p = hotness example_cache.heap p) ∧
      c'.n_obj = example_cache.n_obj + 1 ∧
      c'.occupied_byte = example_cache.occupied_byte + (mk_req 40 3).obj_size :=
  ⟨⟨queue_ok_example, by decide⟩,
   C7_insert example_cache (mk_req 40 3) queue_ok_example (by decide)⟩

theorem cache_inv_example : cache_inv example_cache where
  index_iff := fun _ => Iff.rfl
  q_nodup := by decide
  ht_nodup := by decide
  q_live := queue_ok_example.2
  n_obj_eq := by decide
  bytes_eq := by decide

/-! ## C8: eviction -/

/-- C8. On a coherent non-empty cache, in either build, `FIFO_Reinsertion_to_evict` selects a
record `v` (leaving the state `c1`), and `FIFO_Reinsertion_evict` (with any fuel above the queue
length) removes exactly `v`: in the state `c2` that it leaves, `v` is in neither the queue nor
the index and is destroyed, the queue and the index are those that the scan left with `v`
erased (so every other record is still resident, in the same order), every other record is as
the scan left it, the object count has decreased by 1 and the occupied bytes by the size of `v`;
with a non-null output slot, the slot holds the record `v` as it was right after the scan, that
is immediately before it was unlinked. -/
theorem C8_evict (USE_BELADY : Bool) (c : cache_t) (hinv : cache_inv c) (hne : c.q ≠ []) :
    ∃ c1 v k c2 o,
      (∀ fuel, c.q.length < fuel →
        FIFO_Reinsertion_to_evict USE_BELADY fuel c = some (c1, v, k)) ∧
      heap_read c1.heap v = some o ∧
      (∀ fuel, c.q.length < fuel →
        FIFO_Reinsertion_evict USE_BELADY fuel c true = some (c2, some o) ∧
        FIFO_Reinsertion_evict USE_BELADY fuel c false = some (c2, none)) ∧
      v ∈ c.q ∧ v ∈ c.hashtable ∧
      v ∉ c2.q ∧ v ∉ c2.hashtable ∧ heap_read c2.heap v = none ∧
      c2.q = c1.q.erase v ∧ c2.hashtable = c.hashtable.erase v ∧
      (∀ p, p ≠ v → ((p ∈ c2.q ↔ p ∈ c.q) ∧ (p ∈ c2.hashtable ↔ p ∈ c.hashtable) ∧
        heap_read c2.heap p = heap_read c1.heap p)) ∧
      c2.n_obj = c.n_obj - 1 ∧
      c2.occupied_byte = c.occupied_byte - size_at c.heap v := by
  obtain ⟨pre, hs, v, hq, -, -, hlast, hrun⟩ :=
    to_evict_result USE_BELADY c (cache_inv_queue_ok hinv) hne
  have hlen : hs.length ≤ c.q.length := by simp [hq]
  have hte := hrun (hs.length + 1) (Nat.lt_succ_self _)
  obtain ⟨hinv1, hv1, hn1, hb1⟩ := cache_inv_to_evict USE_BELADY _ c _ v _ hinv hte
  obtain ⟨c2, h2, hinv2, hq2, hht2, hheap2, hn2, hb2⟩ := cache_inv_remove _ v hinv1 hv1
  obtain ⟨o, ho⟩ := Option.isSome_iff_exists.1 (hinv1.q_live v hv1)
  have hperm : ({ c with heap := reset_all c.heap hs, q := hs ++ pre } : cache_t).q.Perm c.q := by
    show (hs ++ pre).Perm c.q
    rw [hq]; exact List.perm_append_comm
  have hvq : v ∈ c.q := hperm.mem_iff.1 hv1
  have hsz : size_at (reset_all c.heap hs) v = size_at c.heap v :=
    size_at_congr (size_reset_all c.heap hs v)
  refine ⟨_, v, hs.length, c2, o, fun fuel hf => hrun fuel (by omega), ho, ?_, hvq,
    (hinv.index_iff v).2 hvq, ?_, ?_, ?_, hq2, hht2, ?_, ?_, ?_⟩
  · intro fuel hf
    have hrf := hrun fuel (by omega)
    constructor
    · simp only [FIFO_Reinsertion_evict, hrf, cache_evict_base, h2, if_true, ho]
    · simp [FIFO_Reinsertion_evict, hrf, cache_evict_base, h2]
  · rw [hq2, hinv1.q_nodup.mem_erase_iff]
    exact fun h => h.1 rfl
  · rw [hht2, hinv1.ht_nodup.mem_erase_iff]
    exact fun h => h.1 rfl
  · rw [hheap2, heap_read_set_none, if_pos rfl]
  · intro p hp
    refine ⟨?_, ?_, ?_⟩
    · rw [hq2, hinv1.q_nodup.mem_erase_iff, hperm.mem_iff]
      exact ⟨fun h => h.2, fun h => ⟨hp, h⟩⟩
    · rw [hht2, hinv1.ht_nodup.mem_erase_iff]
      exact ⟨fun h => h.2, fun h => ⟨hp, h⟩⟩
    · rw [hheap2, heap_read_set_none, if_neg hp]
  · exact hn2
  · rw [hb2]
    show c.occupied_byte - size_at (reset_all c.heap hs) v = _
    rw [hsz]

/-- Witness of C8 at the cache with queue `[C, B, A]` in which `A` has hotness 2, in the default
build. -/
theorem C8_evict_witness :
    (cache_inv example_cache ∧ example_cache.q ≠ []) ∧
    ∃ c1 v k c2 o,
      (∀ fuel, example_cache.q.length < fuel →
        FIFO_Reinsertion_to_evict false fuel example_cache = some (c1, v, k)) ∧
      heap_read c1.heap v = some o ∧
      (∀ fuel, example_cache.q.length < fuel →
        FIFO_Reinsertion_evict false fuel example_cache true = some (c2, some o) ∧
        FIFO_Reinsertion_evict false fuel example_cache false = some (c2, none)) ∧
      v ∈ example_cache.q ∧ v ∈ example_cache.hashtable ∧
      v ∉ c2.q ∧ v ∉ c2.hashtable ∧ heap_read c2.heap v = none ∧
      c2.q = c1.q.erase v ∧ c2.hashtable = example_cache.hashtable.erase v ∧
      (∀ p, p ≠ v → ((p ∈ c2.q ↔ p ∈ example_cache.q) ∧
        (p ∈ c2.hashtable ↔ p ∈ example_cache.hashtable) ∧
        heap_read c2.heap p = heap_read c1.heap p)) ∧
      c2.n_obj = example_cache.n_obj - 1 ∧
      c2.occupied_byte = example_cache.occupied_byte - size_at example_cache.heap v :=
  ⟨⟨cache_inv_example, by decide⟩,
   C8_evict false example_cache cache_inv_example (by decide)⟩

/-! ## C9: explicit removal -/

/-- C9. `FIFO_Reinsertion_remove`. When the id is not resident it returns false and the cache
state is unchanged, in every cache state. When the id is resident in a coherent cache (the index
gives the record `p`) it returns true and removes exactly `p`: the queue and the index are the previous ones with
`p` erased, so `p` is in neither and the remaining records keep their relative order; no scan
runs: every other record is unchanged, its hotness included. -/
theorem C9_remove (c : cache_t) (obj_id : Nat) :
    (hashtable_find_obj_id c obj_id = none →
      FIFO_Reinsertion_remove c obj_id = some (false, c)) ∧
    (cache_inv c → ∀ p, hashtable_find_obj_id c obj_id = some p →
      ∃ c', FIFO_Reinsertion_remove c obj_id = some (true, c') ∧
        c'.q = c.q.filter (fun p' => p' != p) ∧
        c'.hashtable = c.hashtable.filter (fun p' => p' != p) ∧
        p ∈ c.q ∧ p ∉ c'.q ∧ p ∉ c'.hashtable ∧ heap_read c'.heap p = none ∧
        c'.q.length + 1 = c.q.length ∧
        (∀ p', p' ≠ p → heap_read c'.heap p' = heap_read c.heap p') ∧
        (∀ p' ∈ c'.q, hotness c'.heap p' = hotness c.heap p')) := by
  constructor
  · intro hnone
    simp [FIFO_Reinsertion_remove, hnone]
  · intro hinv p hp
    have hpq : p ∈ c.q := (hinv.index_iff p).1 (find_obj_id_some hp).1
    obtain ⟨c', h', hinv', hq', hht', hheap', -, -⟩ := cache_inv_remove c p hinv hpq
    have hpq' : p ∉ c'.q := by
      rw [hq', hinv.q_nodup.mem_erase_iff]
      exact fun h => h.1 rfl
    have hother : ∀ p', p' ≠ p → heap_read c'.heap p' = heap_read c.heap p' := by
      intro p' hp'
      rw [hheap', heap_read_set_none, if_neg hp']
    refine ⟨c', by simp [FIFO_Reinsertion_remove, hp, FIFO_Reinsertion_remove_obj, h'],
      by rw [hq', hinv.q_nodup.erase_eq_filter],
      by rw [hht', hinv.ht_nodup.erase_eq_filter], hpq, hpq', ?_, ?_, ?_, hother, ?_⟩
    · rw [hht', hinv.ht_nodup.mem_erase_iff]
      exact fun h => h.1 rfl
    · rw [hheap', heap_read_set_none, if_pos rfl]
    · rw [hq', List.length_erase_of_mem hpq]
      have : 0 < c.q.length := List.length_pos_of_mem hpq
      omega
    · intro p' hp'
      unfold hotness
      rw [hother p' (fun e => hpq' (e ▸ hp'))]

/-- Witness of C9 at the cache with queue `[C, B, A]`: id 40 is not resident, and removing
id 20 (`B`, a record in the middle of the queue) leaves the queue `[C, A]`. -/
theorem C9_remove_witness :
    cache_inv example_cache ∧
    (hashtable_find_obj_id example_cache 40 = none ∧
      FIFO_Reinsertion_remove example_cache 40 = some (false, example_cache)) ∧
    (hashtable_find_obj_id example_cache 20 = some 1 ∧
      ∃ c', FIFO_Reinsertion_remove example_cache 20 = some (true, c') ∧ c'.q = [2, 0]) :=
  ⟨cache_inv_example,
   ⟨by decide, (C9_remove example_cache 40).1 (by decide)⟩,
   ⟨by decide, by
      obtain ⟨c', h1, h2, -⟩ := (C9_remove example_cache 20).2 cache_inv_example 1 (by decide)
      exact ⟨c', h1, by rw [h2]; decide⟩⟩⟩

/-! ## C10: normalisation of the reuse-distance -/

theorem lcs_decode_supported (lcs_ver : Int) (record : lcs_frame_t) (req : request_t)
    (hver : lcs_ver = 1 ∨ lcs_ver = 2 ∨ lcs_ver = 3) :
    ∃ req1, lcs_decode lcs_ver record req = some req1 ∧
      req1.next_access_vtime = record.next_access_vtime ∧ req1.obj_size = record.obj_size := by
  rcases hver with h | h | h <;> subst h <;> simp [lcs_decode]

theorem lcs_normalize_vtime (M : Int) (req : request_t) :
    ((req.next_access_vtime = -1 ∨ req.next_access_vtime = INT64_MAX) →
      (lcs_normalize M req).next_access_vtime = M) ∧
    (¬ (req.next_access_vtime = -1 ∨ req.next_access_vtime = INT64_MAX) →
      (lcs_normalize M req).next_access_vtime = req.next_access_vtime) := by
  unfold lcs_normalize
  constructor
  · intro h; rw [if_pos h]
  · intro h; rw [if_neg h]

theorem lcs_read_frames_vtime (M lcs_ver : Int) (ign : Bool) (dir : read_direction_t)
    (hver : lcs_ver = 1 ∨ lcs_ver = 2 ∨ lcs_ver = 3) :
    ∀ (records : List lcs_frame_t) (req : request_t), records ≠ [] →
      ∃ skipped record,
        records = skipped ++ record :: (lcs_read_frames M lcs_ver ign dir records req).2.1 ∧
        ((record.next_access_vtime = -1 ∨ record.next_access_vtime = INT64_MAX) →
          (lcs_read_frames M lcs_ver ign dir records req).2.2.next_access_vtime = M) ∧
        (¬ (record.next_access_vtime = -1 ∨ record.next_access_vtime = INT64_MAX) →
          (lcs_read_frames M lcs_ver ign dir records req).2.2.next_access_vtime
            = record.next_access_vtime) := by
  intro records
  induction records with
  | nil => intro req h; exact absurd rfl h
  | cons record rest ih =>
    intro req _
    obtain ⟨req1, hdec, hv, -⟩ := lcs_decode_supported lcs_ver record req hver
    have hnorm := lcs_normalize_vtime M req1
    rw [hv] at hnorm
    by_cases hskip : (lcs_normalize M req1).obj_size = 0 ∧ ign = true
        ∧ dir = read_direction_t.READ_FORWARD
    · have hstep : lcs_read_frames M lcs_ver ign dir (record :: rest) req
          = lcs_read_frames M lcs_ver ign dir rest (lcs_normalize M req1) := by
        simp only [lcs_read_frames, hdec, if_pos hskip]
      rw [hstep]
      cases rest with
      | nil => exact ⟨[], record, rfl, hnorm⟩
      | cons r rest' =>
        obtain ⟨skipped, record', hrest, hres⟩ :=
          ih (lcs_normalize M req1) (List.cons_ne_nil _ _)
        refine ⟨record :: skipped, record', ?_, hres⟩
        rw [List.cons_append, ← hrest]
    · have hstep : lcs_read_frames M lcs_ver ign dir (record :: rest) req
          = (0, rest, lcs_normalize M req1) := by
        simp only [lcs_read_frames, hdec, if_neg hskip]
      rw [hstep]
      exact ⟨[], record, rfl, hnorm⟩

/-- C10. For a reader of version 1, 2 or 3 with at least one complete frame left and for every
value of `MAX_REUSE_DISTANCE`, `lcs_read_one_req` decodes frames up to a last one, `record` (the
frames `skipped` before it are those it read and passed over): if the encoded
`next_access_vtime` of `record` is `-1` or `INT64_MAX`, the `next_access_vtime` of the request on
return is `MAX_REUSE_DISTANCE`, and for every other encoded value it is the encoded value. -/
theorem C10_reuse_distance_normalized (MAX_REUSE_DISTANCE : Int) (reader : reader_t)
    (req : request_t)
    (hver : reader.lcs_ver = 1 ∨ reader.lcs_ver = 2 ∨ reader.lcs_ver = 3)
    (hne : reader.records ≠ []) :
    ∃ skipped record,
      reader.records
        = skipped ++ record :: (lcs_read_one_req MAX_REUSE_DISTANCE reader req).2.1.records ∧
      ((record.next_access_vtime = -1 ∨ record.next_access_vtime = INT64_MAX) →
        (lcs_read_one_req MAX_REUSE_DISTANCE reader req).2.2.next_access_vtime
          = MAX_REUSE_DISTANCE) ∧
      (¬ (record.next_access_vtime = -1 ∨ record.next_access_vtime = INT64_MAX) →
        (lcs_read_one_req MAX_REUSE_DISTANCE reader req).2.2.next_access_vtime
          = record.next_access_vtime) :=
  lcs_read_frames_vtime MAX_REUSE_DISTANCE reader.lcs_ver reader.ignore_size_zero_req
    reader.read_direction hver reader.records req hne

/-- Witness of C10: a version-2 reader, with zero-size suppression, over a zero-size frame
followed by a frame whose encoded reuse-distance is `-1`. -/
theorem C10_reuse_distance_normalized_witness :
    (example_reader.lcs_ver = 1 ∨ example_reader.lcs_ver = 2 ∨ example_reader.lcs_ver = 3) ∧
    example_reader.records ≠ [] ∧
    (lcs_read_one_req INT64_MAX example_reader (mk_req 0 0)).2.2.next_access_vtime
      = INT64_MAX ∧
    ∃ skipped record,
      example_reader.records
        = skipped ++ record ::
            (lcs_read_one_req INT64_MAX example_reader (mk_req 0 0)).2.1.records ∧
      ((record.next_access_vtime = -1 ∨ record.next_access_vtime = INT64_MAX) →
        (lcs_read_one_req INT64_MAX example_reader (mk_req 0 0)).2.2.next_access_vtime
          = INT64_MAX) ∧
      (¬ (record.next_access_vtime = -1 ∨ record.next_access_vtime = INT64_MAX) →
        (lcs_read_one_req INT64_MAX example_reader (mk_req 0 0)).2.2.next_access_vtime
          = record.next_access_vtime) :=
  ⟨by decide, by decide, by decide,
   C10_reuse_distance_normalized INT64_MAX example_reader (mk_req 0 0) (by decide)
     (by decide)⟩

/-! ## C11: suppression of zero-size frames -/

theorem lcs_decode_some_ver {lcs_ver : Int} {record : lcs_frame_t} {req req1 : request_t}
    (h : lcs_decode lcs_ver record req = some req1) :
    lcs_ver = 1 ∨ lcs_ver = 2 ∨ lcs_ver = 3 := by
  by_contra hc
  simp only [not_or] at hc
  simp [lcs_decode, hc.1, hc.2.1, hc.2.2] at h

theorem lcs_decode_v1 (record : lcs_frame_t) (req : request_t) :
    lcs_decode 1 record req
      = some { req with clock_time := record.clock_time, obj_id := record.obj_id,
                        obj_size := record.obj_size,
                        next_access_vtime := record.next_access_vtime } := by
  simp [lcs_decode]

theorem lcs_decode_v2 (record : lcs_frame_t) (req : request_t) :
    lcs_decode 2 record req
      = some { req with clock_time := record.clock_time, obj_id := record.obj_id,
                        obj_size := record.obj_size,
                        next_access_vtime := record.next_access_vtime,
                        tenant_id := record.tenant, op := record.op } := by
  simp [lcs_decode]

theorem lcs_decode_v3 (record : lcs_frame_t) (req : request_t) :
    lcs_decode 3 record req
      = some { req with clock_time := record.clock_time, obj_id := record.obj_id,
                        obj_size := record.obj_size,
                        next_access_vtime := record.next_access_vtime,
                        tenant_id := record.tenant, op := record.op } := by
  simp [lcs_decode]

theorem lcs_normalize_rest (M : Int) (req : request_t) :
    (lcs_normalize M req).tenant_id = req.tenant_id ∧ (lcs_normalize M req).op = req.op ∧
    (lcs_normalize M req).valid = req.valid ∧
    (lcs_normalize M req).clock_time = req.clock_time ∧
    (lcs_normalize M req).obj_id = req.obj_id ∧
    (lcs_normalize M req).obj_size = req.obj_size := by
  unfold lcs_normalize
  split <;> simp

theorem lcs_decode_normalize_base (M lcs_ver : Int) (record f : lcs_frame_t)
    (req req1 : request_t) (h : lcs_decode lcs_ver f req = some req1) :
    lcs_decode lcs_ver record (lcs_normalize M req1) = lcs_decode lcs_ver record req := by
  obtain ⟨ht, ho, hv, -⟩ := lcs_normalize_rest M req1
  rcases lcs_decode_some_ver h with hver | hver | hver <;> subst hver
  · rw [lcs_decode_v1] at h ⊢
    rw [lcs_decode_v1, ht, ho, hv]
    cases h; rfl
  · rw [lcs_decode_v2] at h ⊢
    rw [lcs_decode_v2, hv]
    cases h; rfl
  · rw [lcs_decode_v3] at h ⊢
    rw [lcs_decode_v3, hv]
    cases h; rfl

theorem lcs_normalize_size (M : Int) (req : request_t) :
    (lcs_normalize M req).obj_size = req.obj_size := by
  unfold lcs_normalize
  split <;> rfl

theorem lcs_decode_size {lcs_ver : Int} {record : lcs_frame_t} {req req1 : request_t}
    (h : lcs_decode lcs_ver record req = some req1) : req1.obj_size = record.obj_size := by
  unfold lcs_decode at h
  split at h
  · cases h; rfl
  · split at h
    · cases h; rfl
    · split at h
      · cases h; rfl
      · cases h

theorem lcs_read_frames_cons (M lcs_ver : Int) (ign : Bool) (dir : read_direction_t)
    (record : lcs_frame_t) (rest : List lcs_frame_t) (req req1 : request_t)
    (hdec : lcs_decode lcs_ver record req = some req1) :
    lcs_read_frames M lcs_ver ign dir (record :: rest) req
      = if record.obj_size = 0 ∧ ign = true ∧ dir = read_direction_t.READ_FORWARD then
          lcs_read_frames M lcs_ver ign dir rest (lcs_normalize M req1)
        else (0, rest, lcs_normalize M req1) := by
  have hsz : (lcs_normalize M req1).obj_size = record.obj_size := by
    rw [lcs_normalize_size, lcs_decode_size hdec]
  rw [lcs_read_frames]
  simp only [hdec, hsz]

theorem lcs_read_frames_success (M lcs_ver : Int) (dir : read_direction_t)
    (hdir : dir = read_direction_t.READ_FORWARD) :
    ∀ (records : List lcs_frame_t) (req : request_t) (rest : List lcs_frame_t)
      (req' : request_t),
      lcs_read_frames M lcs_ver true dir records req = (0, rest, req') →
      req'.obj_size ≠ 0 ∧
      ∃ skipped record req1, records = skipped ++ record :: rest ∧
        (∀ f ∈ skipped, f.obj_size = 0) ∧ record.obj_size ≠ 0 ∧
        lcs_decode lcs_ver record req = some req1 ∧ req' = lcs_normalize M req1 := by
  intro records
  induction records with
  | nil => intro req rest req' h; simp [lcs_read_frames] at h
  | cons record tl ih =>
    intro req rest req' h
    cases hdec : lcs_decode lcs_ver record req with
    | none => simp [lcs_read_frames, hdec] at h
    | some req1 =>
      rw [lcs_read_frames_cons M lcs_ver true dir record tl req req1 hdec] at h
      have hsz : (lcs_normalize M req1).obj_size = record.obj_size := by
        rw [lcs_normalize_size, lcs_decode_size hdec]
      by_cases hzero : record.obj_size = 0
      · rw [if_pos ⟨hzero, rfl, hdir⟩] at h
        obtain ⟨hne, skipped, r, r1, hrec, hsk, hr, hd, hreq⟩ := ih _ rest req' h
        refine ⟨hne, record :: skipped, r, r1, by rw [hrec]; rfl, ?_, hr, ?_, hreq⟩
        · intro f hf
          rcases List.mem_cons.1 hf with rfl | hf
          · exact hzero
          · exact hsk f hf
        · rw [← hd, lcs_decode_normalize_base M lcs_ver r record req req1 hdec]
      · rw [if_neg (fun hc => hzero hc.1)] at h
        simp only [Prod.mk.injEq, true_and] at h
        obtain ⟨rfl, rfl⟩ := h
        exact ⟨by rw [hsz]; exact hzero, [], record, req1, rfl, by simp, hzero, hdec, rfl⟩

/-- C11. (1) With `ignore_size_zero_req` set and forward reading, a call of `lcs_read_one_req`
that returns 0 yields a request with `obj_size != 0`, and that request is the decoding (version
dispatch on the request passed in, then normalisation) of the first frame of non-zero size at or
after the current position: the frames before it all have size 0, and the reader is left just
behind it. (2) With suppression not set, or a direction that is not forward, and a reader of
version 1, 2 or 3, a frame of size 0 at the current position is returned (return value 0, the
reader left just behind it) as a request with `obj_size = 0`. -/
theorem C11_zero_size_suppression (MAX_REUSE_DISTANCE : Int) (reader : reader_t)
    (req : request_t) :
    (reader.ignore_size_zero_req = true →
      reader.read_direction = read_direction_t.READ_FORWARD →
      ∀ reader' req', lcs_read_one_req MAX_REUSE_DISTANCE reader req = (0, reader', req') →
        req'.obj_size ≠ 0 ∧
        ∃ skipped record req1, reader.records = skipped ++ record :: reader'.records ∧
          (∀ f ∈ skipped, f.obj_size = 0) ∧ record.obj_size ≠ 0 ∧
          lcs_decode reader.lcs_ver record req = some req1 ∧
          req' = lcs_normalize MAX_REUSE_DISTANCE req1) ∧
    ((reader.ignore_size_zero_req = false ∨
        reader.read_direction ≠ read_direction_t.READ_FORWARD) →
      (reader.lcs_ver = 1 ∨ reader.lcs_ver = 2 ∨ reader.lcs_ver = 3) →
      ∀ record rest, reader.records = record :: rest → record.obj_size = 0 →
        ∃ req1 req', lcs_decode reader.lcs_ver record req = some req1 ∧
          req' = lcs_normalize MAX_REUSE_DISTANCE req1 ∧ req'.obj_size = 0 ∧
          lcs_read_one_req MAX_REUSE_DISTANCE reader req
            = (0, { reader with records := rest }, req')) := by
  constructor
  · intro hign hdir reader' req' h
    unfold lcs_read_one_req at h
    rw [hign] at h
    cases hres : lcs_read_frames MAX_REUSE_DISTANCE reader.lcs_ver true reader.read_direction
        reader.records req with
    | mk ret r =>
      obtain ⟨rest, rq⟩ := r
      rw [hres] at h
      simp only [Prod.mk.injEq] at h
      obtain ⟨rfl, rfl, rfl⟩ := h
      exact lcs_read_frames_success MAX_REUSE_DISTANCE reader.lcs_ver reader.read_direction hdir
        reader.records req rest rq hres
  · intro hoff hver record rest hrec hzero
    obtain ⟨req1, hdec, -, -⟩ := lcs_decode_supported reader.lcs_ver record req hver
    have hnskip : ¬ (record.obj_size = 0 ∧ reader.ignore_size_zero_req = true
        ∧ reader.read_direction = read_direction_t.READ_FORWARD) := by
      rintro ⟨-, h1, h2⟩
      rcases hoff with h | h
      · rw [h] at h1; cases h1
      · exact h h2
    refine ⟨req1, _, hdec, rfl, by rw [lcs_normalize_size, lcs_decode_size hdec, hzero], ?_⟩
    unfold lcs_read_one_req
    rw [hrec, lcs_read_frames_cons _ _ _ _ record rest req req1 hdec, if_neg hnskip]

/-- Witness of C11: the suppressing reader passes over its zero-size first frame and returns its
second frame; the same reader without suppression returns the zero-size frame. -/
theorem C11_zero_size_suppression_witness :
    (example_reader.ignore_size_zero_req = true ∧
      example_reader.read_direction = read_direction_t.READ_FORWARD ∧
      lcs_read_one_req INT64_MAX example_reader (mk_req 0 0)
        = (0, (lcs_read_one_req INT64_MAX example_reader (mk_req 0 0)).2.1,
            (lcs_read_one_req INT64_MAX example_reader (mk_req 0 0)).2.2) ∧
      (lcs_read_one_req INT64_MAX example_reader (mk_req 0 0)).2.2.obj_size = 100) ∧
    ((example_reader_keep.ignore_size_zero_req = false ∨
        example_reader_keep.read_direction ≠ read_direction_t.READ_FORWARD) ∧
      (example_reader_keep.lcs_ver = 1 ∨ example_reader_keep.lcs_ver = 2
        ∨ example_reader_keep.lcs_ver = 3) ∧
      (lcs_read_one_req INT64_MAX example_reader_keep (mk_req 0 0)).1 = 0 ∧
      (lcs_read_one_req INT64_MAX example_reader_keep (mk_req 0 0)).2.2.obj_size = 0) ∧
    ((lcs_read_one_req INT64_MAX example_reader (mk_req 0 0)).2.2.obj_size ≠ 0 ∧
        ∃ skipped record req1,
          example_reader.records = skipped ++ record ::
            (lcs_read_one_req INT64_MAX example_reader (mk_req 0 0)).2.1.records ∧
          (∀ f ∈ skipped, f.obj_size = 0) ∧ record.obj_size ≠ 0 ∧
          lcs_decode example_reader.lcs_ver record (mk_req 0 0) = some req1 ∧
          (lcs_read_one_req INT64_MAX example_reader (mk_req 0 0)).2.2
            = lcs_normalize INT64_MAX req1) :=
  ⟨⟨by decide, by decide, by decide, by decide⟩,
   ⟨by decide, by decide, by decide, by decide⟩,
   (C11_zero_size_suppression INT64_MAX example_reader (mk_req 0 0)).1 (by decide) (by decide)
     _ _ (by decide)⟩

/-! ## C12: rejection of a malformed header -/

theorem verify_iff (k : lcs_h) (header : lcs_trace_header_t) :
    verify k header = true ↔
      header.start_magic = k.LCS_TRACE_START_MAGIC ∧ header.end_magic = k.LCS_TRACE_END_MAGIC ∧
      header.version ≤ k.MAX_LCS_VERSION ∧ 0 ≤ header.stat.n_req ∧ 0 ≤ header.stat.n_obj := by
  unfold verify
  by_cases h1 : header.start_magic = k.LCS_TRACE_START_MAGIC
  · by_cases h2 : header.end_magic = k.LCS_TRACE_END_MAGIC
    · by_cases h3 : header.version ≤ k.MAX_LCS_VERSION
      · by_cases h4 : 0 ≤ header.stat.n_req
        · by_cases h5 : 0 ≤ header.stat.n_obj
          · simp [h1, h2, h3, h4, h5]
          · simp [h1, h2, h3, h4, h5]
        · simp [h1, h2, h3, h4]
      · simp [h1, h2, h3]
    · simp [h1, h2]
  · simp [h1]

theorem setup_verify_false (k : lcs_h) (reader : reader_t) (header : lcs_trace_header_t)
    (h : verify k header = false) :
    lcsReader_setup k reader header = setup_result.exit 1 reader := by
  simp [lcsReader_setup, h]

/-- C12. For every header and every reader: `verify` returns true exactly when none of the four
conditions holds (start magic differs from `LCS_TRACE_START_MAGIC`, end magic differs from
`LCS_TRACE_END_MAGIC`, version above `MAX_LCS_VERSION`, negative `n_req` or negative `n_obj`);
and whenever one of them holds, `lcsReader_setup` ends in `exit(1)` with the reader exactly as it
was passed in: no field set, no record read. -/
theorem C12_setup_rejects_header (k : lcs_h) (reader : reader_t)
    (header : lcs_trace_header_t) :
    (verify k header = true ↔
      ¬ (header.start_magic ≠ k.LCS_TRACE_START_MAGIC ∨
         header.end_magic ≠ k.LCS_TRACE_END_MAGIC ∨
         header.version > k.MAX_LCS_VERSION ∨
         (header.stat.n_req < 0 ∨ header.stat.n_obj < 0))) ∧
    ((header.start_magic ≠ k.LCS_TRACE_START_MAGIC ∨
      header.end_magic ≠ k.LCS_TRACE_END_MAGIC ∨
      header.version > k.MAX_LCS_VERSION ∨
      (header.stat.n_req < 0 ∨ header.stat.n_obj < 0)) →
      lcsReader_setup k reader header = setup_result.exit 1 reader) := by
  have hiff : verify k header = true ↔
      ¬ (header.start_magic ≠ k.LCS_TRACE_START_MAGIC ∨
         header.end_magic ≠ k.LCS_TRACE_END_MAGIC ∨
         header.version > k.MAX_LCS_VERSION ∨
         (header.stat.n_req < 0 ∨ header.stat.n_obj < 0)) := by
    rw [verify_iff]
    simp only [not_or, not_not, not_lt, gt_iff_lt]
  refine ⟨hiff, fun hbad => setup_verify_false k reader header ?_⟩
  cases hv : verify k header with
  | false => rfl
  | true => exact absurd hbad (hiff.1 hv)

/-- Witness of C12: a header with one flipped bit in the start magic, and a header of version 4
under a highest version of 3. -/
theorem C12_setup_rejects_header_witness :
    (({ example_header with start_magic := 0x123456789abcdef1 } : lcs_trace_header_t).start_magic
        ≠ example_lcs_h.LCS_TRACE_START_MAGIC ∧
      lcsReader_setup example_lcs_h example_reader_unset
          { example_header with start_magic := 0x123456789abcdef1 }
        = setup_result.exit 1 example_reader_unset) ∧
    (({ example_header with version := 4 } : lcs_trace_header_t).version
        > example_lcs_h.MAX_LCS_VERSION ∧
      lcsReader_setup example_lcs_h example_reader_unset { example_header with version := 4 }
        = setup_result.exit 1 example_reader_unset) :=
  ⟨⟨by decide,
    (C12_setup_rejects_header example_lcs_h example_reader_unset
      { example_header with start_magic := 0x123456789abcdef1 }).2 (Or.inl (by decide))⟩,
   ⟨by decide,
    (C12_setup_rejects_header example_lcs_h example_reader_unset
      { example_header with version := 4 }).2 (Or.inr (Or.inr (Or.inl (by decide))))⟩⟩

/-! ## C19: when setup succeeds -/

theorem setup_verify_true (k : lcs_h) (reader : reader_t) (header : lcs_trace_header_t)
    (h : verify k header = true) :
    lcsReader_setup k reader header
      = if header.version = 1 then
          setup_result.ret 0
            { setup_assigned k reader header with item_size := k.sizeof_lcs_req_v1_t }
        else if header.version = 2 then
          setup_result.ret 0
            { setup_assigned k reader header with item_size := k.sizeof_lcs_req_v2_t }
        else if header.version = 3 then
          setup_result.ret 0
            { setup_assigned k reader header with item_size := k.sizeof_lcs_req_v3_t }
        else setup_result.exit 1 (setup_assigned k reader header) := by
  simp only [lcsReader_setup, h, Bool.not_true, Bool.false_eq_true, if_false]
  rfl

/-- C19. With a highest supported version of at least 3: `lcsReader_setup` returns (and then
returns 0) if and only if both magic numbers match, `n_req >= 0`, `n_obj >= 0` and the version
of the header is exactly 1, 2 or 3. A header of version 0 ends setup in `exit(1)`, although
`verify` accepts it when its magic numbers and counts are right. When setup returns, the
`lcs_ver` of the reader is the version of the header, `trace_start_offset` is the size of the
header, `item_size` is the size of the record struct of that version, and no record has been
read. -/
theorem C19_setup_success (k : lcs_h) (reader : reader_t) (header : lcs_trace_header_t)
    (hmax : 3 ≤ k.MAX_LCS_VERSION) :
    ((∃ reader', lcsReader_setup k reader header = setup_result.ret 0 reader') ↔
      (header.start_magic = k.LCS_TRACE_START_MAGIC ∧
       header.end_magic = k.LCS_TRACE_END_MAGIC ∧
       0 ≤ header.stat.n_req ∧ 0 ≤ header.stat.n_obj ∧
       (header.version = 1 ∨ header.version = 2 ∨ header.version = 3))) ∧
    (header.version = 0 →
      (∃ reader', lcsReader_setup k reader header = setup_result.exit 1 reader') ∧
      (header.start_magic = k.LCS_TRACE_START_MAGIC →
        header.end_magic = k.LCS_TRACE_END_MAGIC →
        0 ≤ header.stat.n_req → 0 ≤ header.stat.n_obj → verify k header = true)) ∧
    (∀ value reader', lcsReader_setup k reader header = setup_result.ret value reader' →
      value = 0 ∧
      reader'.lcs_ver = header.version ∧
      reader'.trace_start_offset = k.sizeof_lcs_trace_header_t ∧
      reader'.item_size
        = (if header.version = 1 then k.sizeof_lcs_req_v1_t
           else if header.version = 2 then k.sizeof_lcs_req_v2_t
           else k.sizeof_lcs_req_v3_t) ∧
      reader'.records = reader.records) := by
  refine ⟨⟨?_, ?_⟩, ?_, ?_⟩
  · rintro ⟨reader', h⟩
    cases hv : verify k header with
    | false => rw [setup_verify_false k reader header hv] at h; cases h
    | true =>
      obtain ⟨h1, h2, -, h4, h5⟩ := (verify_iff k header).1 hv
      refine ⟨h1, h2, h4, h5, ?_⟩
      by_contra hc
      simp only [not_or] at hc
      rw [setup_verify_true k reader header hv, if_neg hc.1, if_neg hc.2.1, if_neg hc.2.2] at h
      cases h
  · rintro ⟨h1, h2, h4, h5, hver⟩
    have hv : verify k header = true :=
      (verify_iff k header).2 ⟨h1, h2, by rcases hver with h | h | h <;> omega, h4, h5⟩
    rw [setup_verify_true k reader header hv]
    rcases hver with h | h | h <;> simp [h]
  · intro h0
    refine ⟨?_, fun h1 h2 h4 h5 => (verify_iff k header).2 ⟨h1, h2, by omega, h4, h5⟩⟩
    cases hv : verify k header with
    | false => exact ⟨_, setup_verify_false k reader header hv⟩
    | true =>
      rw [setup_verify_true k reader header hv]
      simp [h0]
  · intro value reader' h
    cases hv : verify k header with
    | false => rw [setup_verify_false k reader header hv] at h; cases h
    | true =>
      rw [setup_verify_true k reader header hv] at h
      by_cases h1 : header.version = 1
      · rw [if_pos h1] at h
        cases h
        simp [h1, setup_assigned]
      · by_cases h2 : header.version = 2
        · rw [if_neg h1, if_pos h2] at h
          cases h
          simp [h2, setup_assigned]
        · by_cases h3 : header.version = 3
          · rw [if_neg h1, if_neg h2, if_pos h3] at h
            cases h
            simp [h3, setup_assigned]
          · rw [if_neg h1, if_neg h2, if_neg h3] at h
            cases h

/-- Witness of C19: under a highest version of 3, setup succeeds on a well-formed header of
version 2 and leaves a reader of version 2 with the frame size of version 2. -/
theorem C19_setup_success_witness :
    (3 ≤ example_lcs_h.MAX_LCS_VERSION) ∧
    lcsReader_setup example_lcs_h example_reader_unset example_header
      = setup_result.ret 0 example_reader ∧
    (0 = (0 : Int) ∧
      example_reader.lcs_ver = example_header.version ∧
      example_reader.trace_start_offset = example_lcs_h.sizeof_lcs_trace_header_t ∧
      example_reader.item_size
        = (if example_header.version = 1 then example_lcs_h.sizeof_lcs_req_v1_t
           else if example_header.version = 2 then example_lcs_h.sizeof_lcs_req_v2_t
           else example_lcs_h.sizeof_lcs_req_v3_t) ∧
      example_reader.records = example_reader_unset.records) :=
  ⟨by decide, by decide,
   (C19_setup_success example_lcs_h example_reader_unset example_header (by decide)).2.2
     0 example_reader (by decide)⟩

/-! ## C13: the fields that each version sets -/

theorem lcs_read_frames_v1_keeps (M : Int) (ign : Bool) (dir : read_direction_t) :
    ∀ (records : List lcs_frame_t) (req : request_t),
      (lcs_read_frames M 1 ign dir records req).2.2.tenant_id = req.tenant_id ∧
      (lcs_read_frames M 1 ign dir records req).2.2.op = req.op := by
  intro records
  induction records with
  | nil => intro req; exact ⟨rfl, rfl⟩
  | cons record rest ih =>
    intro req
    obtain ⟨ht, ho, -⟩ := lcs_normalize_rest M
      { req with clock_time := record.clock_time, obj_id := record.obj_id,
                 obj_size := record.obj_size, next_access_vtime := record.next_access_vtime }
    rw [lcs_read_frames_cons M 1 ign dir record rest req _ (lcs_decode_v1 record req)]
    split
    · obtain ⟨h1, h2⟩ := ih (lcs_normalize M
        { req with clock_time := record.clock_time, obj_id := record.obj_id,
                   obj_size := record.obj_size,
                   next_access_vtime := record.next_access_vtime })
      exact ⟨h1.trans ht, h2.trans ho⟩
    · exact ⟨ht, ho⟩

/-- C13, the claim as stated fails. A version-1 reader over one frame: the `tenant_id` and the
`op` of the request after the call are those of the request before the call, 7 and 3 for one
prior content and 9 and 4 for another, so there is no default value that a version-1 decode
leaves in them for every prior content of the request. -/
theorem C13_no_default_counterexample :
    ¬ ∃ default_tenant default_op : Int, ∀ req : request_t,
      (lcs_read_one_req INT64_MAX
          { example_reader with lcs_ver := 1, item_size := 24 } req).2.2.tenant_id
        = default_tenant ∧
      (lcs_read_one_req INT64_MAX
          { example_reader with lcs_ver := 1, item_size := 24 } req).2.2.op = default_op := by
  rintro ⟨dt, dop, h⟩
  have h1 := (h { mk_req 0 0 with tenant_id := 7, op := 3 }).1
  have h2 := (h { mk_req 0 0 with tenant_id := 9, op := 4 }).1
  have e1 : (lcs_read_one_req INT64_MAX { example_reader with lcs_ver := 1, item_size := 24 }
      { mk_req 0 0 with tenant_id := 7, op := 3 }).2.2.tenant_id = 7 := by decide
  have e2 : (lcs_read_one_req INT64_MAX { example_reader with lcs_ver := 1, item_size := 24 }
      { mk_req 0 0 with tenant_id := 9, op := 4 }).2.2.tenant_id = 9 := by decide
  rw [e1] at h1
  rw [e2] at h2
  omega

theorem lcs_read_frames_last (M lcs_ver : Int) (ign : Bool) (dir : read_direction_t)
    (hver : lcs_ver = 1 ∨ lcs_ver = 2 ∨ lcs_ver = 3) :
    ∀ (records : List lcs_frame_t) (req : request_t), records ≠ [] →
      ∃ skipped record req1,
        records = skipped ++ record :: (lcs_read_frames M lcs_ver ign dir records req).2.1 ∧
        lcs_decode lcs_ver record req = some req1 ∧
        ((lcs_read_frames M lcs_ver ign dir records req).2.2 = lcs_normalize M req1 ∨
         (lcs_read_frames M lcs_ver ign dir records req).2.2
           = { lcs_normalize M req1 with valid := false }) := by
  intro records
  induction records with
  | nil => intro req h; exact absurd rfl h
  | cons record rest ih =>
    intro req _
    obtain ⟨req1, hdec, -, -⟩ := lcs_decode_supported lcs_ver record req hver
    rw [lcs_read_frames_cons M lcs_ver ign dir record rest req req1 hdec]
    split
    · cases rest with
      | nil => exact ⟨[], record, req1, rfl, hdec, Or.inr rfl⟩
      | cons r rest' =>
        obtain ⟨skipped, record', req1', hrest, hdec', hres⟩ :=
          ih (lcs_normalize M req1) (List.cons_ne_nil _ _)
        refine ⟨record :: skipped, record', req1', ?_, ?_, hres⟩
        · rw [List.cons_append, ← hrest]
        · rw [← hdec', lcs_decode_normalize_base M lcs_ver record' record req req1 hdec]
    · exact ⟨[], record, req1, rfl, hdec, Or.inl rfl⟩

/-- C13, amended. For every reader with a frame left and every prior content `req` of the
output request, `lcs_read_one_req` decodes frames up to a last one, `record` (the frames
`skipped` before it are those it read and passed over), and on return the request holds:
`clock_time`, `obj_id` and `obj_size` of `record`, and the `next_access_vtime` of `record`
(rewritten to `MAX_REUSE_DISTANCE` when it is `-1` or `INT64_MAX`), in every version 1, 2, 3;
for version 1, `tenant_id` and `op` exactly as they were in `req` before the call, whatever
that content was; for versions 2 and 3, the `tenant` and the `op` of `record`. -/
theorem C13_version_field_sets (MAX_REUSE_DISTANCE : Int) (reader : reader_t)
    (req : request_t)
    (hver : reader.lcs_ver = 1 ∨ reader.lcs_ver = 2 ∨ reader.lcs_ver = 3)
    (hne : reader.records ≠ []) :
    ∃ skipped record,
      reader.records
        = skipped ++ record :: (lcs_read_one_req MAX_REUSE_DISTANCE reader req).2.1.records ∧
      (lcs_read_one_req MAX_REUSE_DISTANCE reader req).2.2.clock_time = record.clock_time ∧
      (lcs_read_one_req MAX_REUSE_DISTANCE reader req).2.2.obj_id = record.obj_id ∧
      (lcs_read_one_req MAX_REUSE_DISTANCE reader req).2.2.obj_size = record.obj_size ∧
      (lcs_read_one_req MAX_REUSE_DISTANCE reader req).2.2.next_access_vtime
        = (if record.next_access_vtime = -1 ∨ record.next_access_vtime = INT64_MAX then
             MAX_REUSE_DISTANCE
           else record.next_access_vtime) ∧
      (reader.lcs_ver = 1 →
        (lcs_read_one_req MAX_REUSE_DISTANCE reader req).2.2.tenant_id = req.tenant_id ∧
        (lcs_read_one_req MAX_REUSE_DISTANCE reader req).2.2.op = req.op) ∧
      (reader.lcs_ver = 2 ∨ reader.lcs_ver = 3 →
        (lcs_read_one_req MAX_REUSE_DISTANCE reader req).2.2.tenant_id = record.tenant ∧
        (lcs_read_one_req MAX_REUSE_DISTANCE reader req).2.2.op = record.op) := by
  obtain ⟨skipped, record, req1, hrec, hdec, hres⟩ :=
    lcs_read_frames_last MAX_REUSE_DISTANCE reader.lcs_ver reader.ignore_size_zero_req
      reader.read_direction hver reader.records req hne
  obtain ⟨ht, ho, -, hc, hi, hs⟩ := lcs_normalize_rest MAX_REUSE_DISTANCE req1
  have hvt : (lcs_normalize MAX_REUSE_DISTANCE req1).next_access_vtime
      = (if req1.next_access_vtime = -1 ∨ req1.next_access_vtime = INT64_MAX then
           MAX_REUSE_DISTANCE
         else req1.next_access_vtime) := by
    unfold lcs_normalize
    split <;> rfl
  have hfields : ∀ r : request_t,
      (r = lcs_normalize MAX_REUSE_DISTANCE req1 ∨
        r = { lcs_normalize MAX_REUSE_DISTANCE req1 with valid := false }) →
      r.clock_time = req1.clock_time ∧ r.obj_id = req1.obj_id ∧ r.obj_size = req1.obj_size ∧
      r.next_access_vtime
        = (if req1.next_access_vtime = -1 ∨ req1.next_access_vtime = INT64_MAX then
             MAX_REUSE_DISTANCE
           else req1.next_access_vtime) ∧
      r.tenant_id = req1.tenant_id ∧ r.op = req1.op := by
    intro r hr
    rcases hr with rfl | rfl
    · exact ⟨hc, hi, hs, hvt, ht, ho⟩
    · exact ⟨hc, hi, hs, hvt, ht, ho⟩
  obtain ⟨f1, f2, f3, f4, f5, f6⟩ := hfields _ hres
  have hreq1 : req1.clock_time = record.clock_time ∧ req1.obj_id = record.obj_id ∧
      req1.obj_size = record.obj_size ∧
      req1.next_access_vtime = record.next_access_vtime ∧
      (reader.lcs_ver = 1 → req1.tenant_id = req.tenant_id ∧ req1.op = req.op) ∧
      (reader.lcs_ver = 2 ∨ reader.lcs_ver = 3 →
        req1.tenant_id = record.tenant ∧ req1.op = record.op) := by
    rcases hver with h | h | h
    · rw [h, lcs_decode_v1] at hdec
      cases hdec
      exact ⟨rfl, rfl, rfl, rfl, fun _ => ⟨rfl, rfl⟩, fun h' => (by exfalso; omega)⟩
    · rw [h, lcs_decode_v2] at hdec
      cases hdec
      exact ⟨rfl, rfl, rfl, rfl, fun h' => (by exfalso; omega), fun _ => ⟨rfl, rfl⟩⟩
    · rw [h, lcs_decode_v3] at hdec
      cases hdec
      exact ⟨rfl, rfl, rfl, rfl, fun h' => (by exfalso; omega), fun _ => ⟨rfl, rfl⟩⟩
  obtain ⟨g1, g2, g3, g4, g5, g6⟩ := hreq1
  refine ⟨skipped, record, hrec, f1.trans g1, f2.trans g2, f3.trans g3, ?_, ?_, ?_⟩
  · rw [← g4]; exact f4
  · intro h
    exact ⟨f5.trans (g5 h).1, f6.trans (g5 h).2⟩
  · intro h
    exact ⟨f5.trans (g6 h).1, f6.trans (g6 h).2⟩

/-- Witness of C13: a version-1 reader with zero-size suppression passes over its first frame
and returns its second one, with the tenant id 7 and the operation code 3 of the request that was
passed in. -/
theorem C13_version_field_sets_witness :
    ((example_reader_v1.lcs_ver = 1 ∨ example_reader_v1.lcs_ver = 2
        ∨ example_reader_v1.lcs_ver = 3) ∧
      example_reader_v1.records ≠ [] ∧
      (lcs_read_one_req INT64_MAX example_reader_v1 example_req_prior).2.2.tenant_id = 7 ∧
      (lcs_read_one_req INT64_MAX example_reader_v1 example_req_prior).2.2.op = 3 ∧
      (lcs_read_one_req INT64_MAX example_reader_v1 example_req_prior).2.2.obj_id = 8) ∧
    ∃ skipped record,
      example_reader_v1.records
        = skipped ++ record ::
            (lcs_read_one_req INT64_MAX example_reader_v1 example_req_prior).2.1.records ∧
      (lcs_read_one_req INT64_MAX example_reader_v1 example_req_prior).2.2.clock_time
        = record.clock_time ∧
      (lcs_read_one_req INT64_MAX example_reader_v1 example_req_prior).2.2.obj_id
        = record.obj_id ∧
      (lcs_read_one_req INT64_MAX example_reader_v1 example_req_prior).2.2.obj_size
        = record.obj_size ∧
      (lcs_read_one_req INT64_MAX example_reader_v1 example_req_prior).2.2.next_access_vtime
        = (if record.next_access_vtime = -1 ∨ record.next_access_vtime = INT64_MAX then
             INT64_MAX
           else record.next_access_vtime) ∧
      (example_reader_v1.lcs_ver = 1 →
        (lcs_read_one_req INT64_MAX example_reader_v1 example_req_prior).2.2.tenant_id
          = example_req_prior.tenant_id ∧
        (lcs_read_one_req INT64_MAX example_reader_v1 example_req_prior).2.2.op
          = example_req_prior.op) ∧
      (example_reader_v1.lcs_ver = 2 ∨ example_reader_v1.lcs_ver = 3 →
        (lcs_read_one_req INT64_MAX example_reader_v1 example_req_prior).2.2.tenant_id
          = record.tenant ∧
        (lcs_read_one_req INT64_MAX example_reader_v1 example_req_prior).2.2.op = record.op) :=
  ⟨⟨by decide, by decide, by decide, by decide, by decide⟩,
   C13_version_field_sets INT64_MAX example_reader_v1 example_req_prior (by decide)
     (by decide)⟩

/-! ## C14: end of stream -/

theorem lcs_read_frames_ret_one (M lcs_ver : Int) (ign : Bool) (dir : read_direction_t)
    (hver : lcs_ver = 1 ∨ lcs_ver = 2 ∨ lcs_ver = 3) :
    ∀ (records : List lcs_frame_t) (req : request_t),
      ((lcs_read_frames M lcs_ver ign dir records req).1 = 0 ∨
        (lcs_read_frames M lcs_ver ign dir records req).1 = 1) ∧
      ((lcs_read_frames M lcs_ver ign dir records req).1 = 1 →
        (lcs_read_frames M lcs_ver ign dir records req).2.2.valid = false ∧
        (lcs_read_frames M lcs_ver ign dir records req).2.1 = []) := by
  intro records
  induction records with
  | nil => intro req; exact ⟨Or.inr rfl, fun _ => ⟨rfl, rfl⟩⟩
  | cons record rest ih =>
    intro req
    obtain ⟨req1, hdec, -, -⟩ := lcs_decode_supported lcs_ver record req hver
    rw [lcs_read_frames_cons M lcs_ver ign dir record rest req req1 hdec]
    split
    · exact ih _
    · exact ⟨Or.inl rfl, fun h => by cases h⟩

/-- C14. (1) For every reader with no complete frame left, `lcs_read_one_req` returns 1 (it
returns: the process is not terminated) with the `valid` flag of the request set to false and
every other field of the request, and the reader, unchanged. (2) For every reader of version 1,
2 or 3 (the versions that a successful setup leaves) and every stream, the call returns 0 or 1,
and whenever it returns 1 the `valid` flag of the request is false and no frame is left. -/
theorem C14_end_of_stream (MAX_REUSE_DISTANCE : Int) (reader : reader_t) (req : request_t) :
    (reader.records = [] →
      lcs_read_one_req MAX_REUSE_DISTANCE reader req
        = (1, reader, { req with valid := false })) ∧
    ((reader.lcs_ver = 1 ∨ reader.lcs_ver = 2 ∨ reader.lcs_ver = 3) →
      ((lcs_read_one_req MAX_REUSE_DISTANCE reader req).1 = 0 ∨
        (lcs_read_one_req MAX_REUSE_DISTANCE reader req).1 = 1) ∧
      ((lcs_read_one_req MAX_REUSE_DISTANCE reader req).1 = 1 →
        (lcs_read_one_req MAX_REUSE_DISTANCE reader req).2.2.valid = false ∧
        (lcs_read_one_req MAX_REUSE_DISTANCE reader req).2.1.records = [])) := by
  constructor
  · intro hnil
    unfold lcs_read_one_req
    rw [hnil]
    simp only [lcs_read_frames]
    cases reader
    simp_all
  · intro hver
    exact lcs_read_frames_ret_one MAX_REUSE_DISTANCE reader.lcs_ver
      reader.ignore_size_zero_req reader.read_direction hver reader.records req

/-- Witness of C14: a reader at the end of its stream, and a suppressing reader whose only
frame has size 0. -/
theorem C14_end_of_stream_witness :
    (({ example_reader with records := [] } : reader_t).records = [] ∧
      lcs_read_one_req INT64_MAX { example_reader with records := [] } (mk_req 5 9)
        = (1, { example_reader with records := [] }, { mk_req 5 9 with valid := false })) ∧
    ((example_reader.lcs_ver = 1 ∨ example_reader.lcs_ver = 2 ∨ example_reader.lcs_ver = 3) ∧
      (lcs_read_one_req INT64_MAX
        { example_reader with records := [⟨1, 7, 0, 5, 0, 0⟩] } (mk_req 5 9)).1 = 1 ∧
      (lcs_read_one_req INT64_MAX
        { example_reader with records := [⟨1, 7, 0, 5, 0, 0⟩] } (mk_req 5 9)).2.2.valid
        = false) :=
  ⟨⟨by decide,
    (C14_end_of_stream INT64_MAX { example_reader with records := [] } (mk_req 5 9)).1
      (by decide)⟩,
   ⟨by decide, by decide,
    (((C14_end_of_stream INT64_MAX { example_reader with records := [⟨1, 7, 0, 5, 0, 0⟩] }
        (mk_req 5 9)).2 (by decide)).2 (by decide)).1⟩⟩

/-! ## C18: the recursion of `lcs_read_one_req` is bounded by the frames left -/

theorem lcs_read_frames_traced_cons (M lcs_ver : Int) (ign : Bool) (dir : read_direction_t)
    (record : lcs_frame_t) (rest : List lcs_frame_t) (req req1 : request_t)
    (hdec : lcs_decode lcs_ver record req = some req1) :
    lcs_read_frames_traced M lcs_ver ign dir (record :: rest) req
      = if record.obj_size = 0 ∧ ign = true ∧ dir = read_direction_t.READ_FORWARD then
          ((lcs_read_frames_traced M lcs_ver ign dir rest (lcs_normalize M req1)).1 + 1,
            (lcs_read_frames_traced M lcs_ver ign dir rest (lcs_normalize M req1)).2)
        else (1, (0, rest, lcs_normalize M req1)) := by
  have hsz : (lcs_normalize M req1).obj_size = record.obj_size := by
    rw [lcs_normalize_size, lcs_decode_size hdec]
  rw [lcs_read_frames_traced]
  simp only [hdec, hsz]

theorem lcs_read_frames_traced_snd (M lcs_ver : Int) (ign : Bool) (dir : read_direction_t) :
    ∀ (records : List lcs_frame_t) (req : request_t),
      (lcs_read_frames_traced M lcs_ver ign dir records req).2
        = lcs_read_frames M lcs_ver ign dir records req := by
  intro records
  induction records with
  | nil => intro req; rfl
  | cons record rest ih =>
    intro req
    cases hdec : lcs_decode lcs_ver record req with
    | none => simp [lcs_read_frames_traced, lcs_read_frames, hdec]
    | some req1 =>
      rw [lcs_read_frames_traced_cons M lcs_ver ign dir record rest req req1 hdec,
        lcs_read_frames_cons M lcs_ver ign dir record rest req req1 hdec]
      split
      · exact ih _
      · rfl

theorem lcs_read_frames_traced_bound (M lcs_ver : Int) (ign : Bool) (dir : read_direction_t) :
    ∀ (records : List lcs_frame_t) (req : request_t),
      (lcs_read_frames_traced M lcs_ver ign dir records req).1
          + (lcs_read_frames M lcs_ver ign dir records req).2.1.length
        ≤ records.length + 1 ∧
      1 ≤ (lcs_read_frames_traced M lcs_ver ign dir records req).1 := by
  intro records
  induction records with
  | nil => intro req; exact ⟨Nat.le_refl _, Nat.le_refl _⟩
  | cons record rest ih =>
    intro req
    cases hdec : lcs_decode lcs_ver record req with
    | none =>
      simp only [lcs_read_frames_traced, lcs_read_frames, hdec, List.length_cons]
      constructor <;> omega
    | some req1 =>
      rw [lcs_read_frames_traced_cons M lcs_ver ign dir record rest req req1 hdec,
        lcs_read_frames_cons M lcs_ver ign dir record rest req req1 hdec]
      split
      · have := ih (lcs_normalize M req1)
        simp only [List.length_cons]
        omega
      · simp only [List.length_cons]
        constructor <;> omega

theorem lcs_read_frames_all_zero (M lcs_ver : Int) (dir : read_direction_t)
    (hver : lcs_ver = 1 ∨ lcs_ver = 2 ∨ lcs_ver = 3)
    (hdir : dir = read_direction_t.READ_FORWARD) :
    ∀ (records : List lcs_frame_t) (req : request_t), (∀ f ∈ records, f.obj_size = 0) →
      (lcs_read_frames M lcs_ver true dir records req).1 = 1 ∧
      (lcs_read_frames M lcs_ver true dir records req).2.1 = [] ∧
      (lcs_read_frames M lcs_ver true dir records req).2.2.valid = false ∧
      (lcs_read_frames_traced M lcs_ver true dir records req).1 = records.length + 1 := by
  intro records
  induction records with
  | nil => intro req _; exact ⟨rfl, rfl, rfl, rfl⟩
  | cons record rest ih =>
    intro req hzero
    obtain ⟨req1, hdec, -, -⟩ := lcs_decode_supported lcs_ver record req hver
    have hskip : record.obj_size = 0 ∧ true = true ∧ dir = read_direction_t.READ_FORWARD :=
      ⟨hzero record (List.mem_cons_self _ _), rfl, hdir⟩
    rw [lcs_read_frames_traced_cons M lcs_ver true dir record rest req req1 hdec,
      lcs_read_frames_cons M lcs_ver true dir record rest req req1 hdec, if_pos hskip,
      if_pos hskip]
    obtain ⟨h1, h2, h3, h4⟩ := ih (lcs_normalize M req1)
      (fun f hf => hzero f (List.mem_cons_of_mem _ hf))
    exact ⟨h1, h2, h3, by simp [h4]⟩

/-- C18. `lcs_read_one_req` returns on every finite stream, and its work is bounded by the
`k` complete frames left in the reader. The traced run computes the same result as
`lcs_read_one_req`; its number of invocations (which is the number of `read_bytes` calls and
the recursion depth) is at least 1 and at most `k + 1`, and more precisely at most one more than
the number of frames it consumed: at most `k` frames and one end-of-stream probe. With zero-size
suppression, forward reading and a version of 1, 2 or 3, when all remaining frames have size 0
the call returns 1 with the `valid` flag false, having consumed the `k` frames in exactly
`k + 1` invocations, the last of which is stopped by the end-of-stream check at its entry. -/
theorem C18_read_terminates (MAX_REUSE_DISTANCE : Int) (reader : reader_t) (req : request_t) :
    (lcs_read_frames_traced MAX_REUSE_DISTANCE reader.lcs_ver reader.ignore_size_zero_req
        reader.read_direction reader.records req).2
      = lcs_read_frames MAX_REUSE_DISTANCE reader.lcs_ver reader.ignore_size_zero_req
          reader.read_direction reader.records req ∧
    1 ≤ lcs_read_one_req_calls MAX_REUSE_DISTANCE reader req ∧
    lcs_read_one_req_calls MAX_REUSE_DISTANCE reader req ≤ reader.records.length + 1 ∧
    lcs_read_one_req_calls MAX_REUSE_DISTANCE reader req
        + (lcs_read_one_req MAX_REUSE_DISTANCE reader req).2.1.records.length
      ≤ reader.records.length + 1 ∧
    (reader.ignore_size_zero_req = true →
      reader.read_direction = read_direction_t.READ_FORWARD →
      (reader.lcs_ver = 1 ∨ reader.lcs_ver = 2 ∨ reader.lcs_ver = 3) →
      (∀ f ∈ reader.records, f.obj_size = 0) →
      (lcs_read_one_req MAX_REUSE_DISTANCE reader req).1 = 1 ∧
      (lcs_read_one_req MAX_REUSE_DISTANCE reader req).2.2.valid = false ∧
      (lcs_read_one_req MAX_REUSE_DISTANCE reader req).2.1.records = [] ∧
      lcs_read_one_req_calls MAX_REUSE_DISTANCE reader req = reader.records.length + 1) := by
  have hb := lcs_read_frames_traced_bound MAX_REUSE_DISTANCE reader.lcs_ver
    reader.ignore_size_zero_req reader.read_direction reader.records req
  refine ⟨lcs_read_frames_traced_snd _ _ _ _ _ _, hb.2, ?_, hb.1, ?_⟩
  · unfold lcs_read_one_req_calls
    omega
  · intro hign hdir hver hzero
    have h := lcs_read_frames_all_zero MAX_REUSE_DISTANCE reader.lcs_ver reader.read_direction
      hver hdir reader.records req hzero
    rw [← hign] at h
    exact ⟨h.1, h.2.2.1, h.2.1, h.2.2.2⟩

/-- Witness of C18: a suppressing forward reader of version 2 whose two remaining frames have
size 0 returns 1 with `valid` false after 3 invocations. -/
theorem C18_read_terminates_witness :
    (example_reader_zero.ignore_size_zero_req = true ∧
      example_reader_zero.read_direction = read_direction_t.READ_FORWARD ∧
      (example_reader_zero.lcs_ver = 1 ∨ example_reader_zero.lcs_ver = 2
        ∨ example_reader_zero.lcs_ver = 3) ∧
      (∀ f ∈ example_reader_zero.records, f.obj_size = 0) ∧
      example_reader_zero.records.length = 2) ∧
    ((lcs_read_one_req INT64_MAX example_reader_zero (mk_req 0 0)).1 = 1 ∧
      (lcs_read_one_req INT64_MAX example_reader_zero (mk_req 0 0)).2.2.valid = false ∧
      (lcs_read_one_req INT64_MAX example_reader_zero (mk_req 0 0)).2.1.records = [] ∧
      lcs_read_one_req_calls INT64_MAX example_reader_zero (mk_req 0 0)
        = example_reader_zero.records.length + 1) :=
  ⟨⟨by decide, by decide, by decide, by decide, by decide⟩,
   (C18_read_terminates INT64_MAX example_reader_zero (mk_req 0 0)).2.2.2.2 (by decide)
     (by decide) (by decide) (by decide)⟩

/-! ## C15 and C20: the configuration string of `FIFO_Reinsertion_init` -/

/-- C20. `FIFO_Reinsertion_init` aborts for every non-null configuration string, the empty
string included; it returns a cache for the null pointer, and the null pointer is the only
configuration for which it returns a cache. -/
theorem C20_init_aborts_on_non_null (ccache_params : common_cache_params_t) :
    (∀ s : String, FIFO_Reinsertion_init ccache_params (some s) = none) ∧
    FIFO_Reinsertion_init ccache_params (some "") = none ∧
    (FIFO_Reinsertion_init ccache_params none).isSome = true ∧
    (∀ cache_specific_params cache,
      FIFO_Reinsertion_init ccache_params cache_specific_params = some cache →
      cache_specific_params = none) := by
  refine ⟨fun _ => rfl, rfl, rfl, ?_⟩
  intro cfg cache h
  cases cfg with
  | none => rfl
  | some s => cases h

/-- Witness of C20: with the null pointer `FIFO_Reinsertion_init` returns the empty cache. -/
theorem C20_init_aborts_on_non_null_witness :
    FIFO_Reinsertion_init { cache_size := 100 } none = some empty_cache ∧
    (none : Option String) = none :=
  ⟨by decide,
   (C20_init_aborts_on_non_null { cache_size := 100 }).2.2.2 none empty_cache (by decide)⟩

/-! ## C16: the oracle build of the scan -/

theorem keep_scanning_oracle_max (o : cache_obj_t) (h : o.next_access_vtime = INT64_MAX) :
    keep_scanning true o = false := by
  simp [keep_scanning, h]

theorem keep_scanning_oracle_other (o : cache_obj_t) (h : o.next_access_vtime ≠ INT64_MAX) :
    keep_scanning true o = keep_scanning false o := by
  simp [keep_scanning, h]

theorem to_evict_oracle_eq_default (fuel : Nat) :
    ∀ c : cache_t,
      (∀ p ∈ c.q, ∀ o, heap_read c.heap p = some o → o.next_access_vtime ≠ INT64_MAX) →
      FIFO_Reinsertion_to_evict true fuel c = FIFO_Reinsertion_to_evict false fuel c := by
  induction fuel with
  | zero => intro c _; rfl
  | succ n ih =>
    intro c hc
    rw [FIFO_Reinsertion_to_evict, FIFO_Reinsertion_to_evict]
    cases ht : q_tail c with
    | none => rfl
    | some v =>
      have hv : v ∈ c.q := List.mem_of_getLast?_eq_some ht
      cases hr : heap_read c.heap v with
      | none => simp only [hr]
      | some o =>
        simp only [hr, keep_scanning_oracle_other o (hc v hv o hr)]
        rw [ih]
        intro p hp o' ho'
        have hp' : p ∈ c.q := by
          rcases List.mem_cons.1 hp with rfl | hp
          · exact hv
          · exact List.mem_of_mem_erase hp
        change heap_read (heap_modify c.heap v _) p = some o' at ho'
        rw [heap_read_modify] at ho'
        by_cases hpv : p = v
        · rw [if_pos hpv, hr] at ho'
          cases ho'
          exact hc v hv o hr
        · rw [if_neg hpv] at ho'
          exact hc p hp' o' ho'

theorem to_evict_run (b : Bool) (c : cache_t) (pre hs : List Nat) (v : Nat) (o : cache_obj_t)
    (hq : c.q = pre ++ hs) (hnd : c.q.Nodup)
    (hhot : ∀ p ∈ hs, scan_keeps b c.heap p = true)
    (hlast : (hs ++ pre).getLast? = some v)
    (hr : heap_read (reset_all c.heap hs) v = some o) (hk : keep_scanning b o = false)
    (fuel : Nat) (hfuel : hs.length < fuel) :
    FIFO_Reinsertion_to_evict b fuel c
      = some ({ c with heap := reset_all c.heap hs, q := hs ++ pre }, v, hs.length) := by
  obtain ⟨f, rfl⟩ : ∃ f, fuel = (f + 1) + hs.length := ⟨fuel - hs.length - 1, by omega⟩
  rw [to_evict_hot_suffix b hs pre c (f + 1) hq hnd hhot,
    to_evict_stop b f _ v o hlast hr hk]
  simp

theorem scan_keeps_oracle (h : List (Option cache_obj_t)) (p : Nat) :
    scan_keeps true h p = true ↔
      ∃ o, heap_read h p = some o ∧ 1 < o.freq ∧ o.next_access_vtime ≠ INT64_MAX := by
  unfold scan_keeps
  cases heap_read h p <;> simp [keep_scanning]

theorem scan_keeps_oracle_default (h : List (Option cache_obj_t)) (p : Nat)
    (hk : scan_keeps true h p = true) : scan_keeps false h p = true := by
  obtain ⟨o, ho, hf, -⟩ := (scan_keeps_oracle h p).1 hk
  simp [scan_keeps, ho, keep_scanning, hf]

/-- C16. The oracle build (`USE_BELADY = true`) of `FIFO_Reinsertion_to_evict` against the
default build.
(1) When the record at the tail has `next_access_vtime = INT64_MAX`, the oracle scan returns it
at once, whatever its hotness: no reinsertion, and the cache state, the hotness of that record
included, is unchanged.
(2) When no record of the queue carries `INT64_MAX`, the two builds compute the same result with
every fuel: the same victim, the same queue, the same state.
(3) On every well-formed non-empty queue the oracle scan returns (with any fuel above the queue
length); its victim `v` is the record nearest the tail that has hotness at most 1 or carries
`INT64_MAX`: the queue was `front ++ v :: reinserted` with every record of `reinserted` of
hotness above 1 and not carrying `INT64_MAX`; or, when every record is such, `v` is the original
tail and `reinserted` is the whole queue. The records of `reinserted`, and only they, were moved
to the head with hotness reset to 1, in `k = reinserted.length` reinsertions; every other record,
a victim that carries `INT64_MAX` included, is unchanged; and whenever the victim was not
returned on account of `INT64_MAX` alone (it has hotness at most 1, or the whole queue was
reinserted), the default build returns the same victim, the same count and the same state. -/
theorem C16_oracle_scan (c : cache_t) :
    (∀ v o fuel, q_tail c = some v → heap_read c.heap v = some o →
      o.next_access_vtime = INT64_MAX →
      FIFO_Reinsertion_to_evict true (fuel + 1) c = some (c, v, 0)) ∧
    ((∀ p ∈ c.q, ∀ o, heap_read c.heap p = some o → o.next_access_vtime ≠ INT64_MAX) →
      ∀ fuel, FIFO_Reinsertion_to_evict true fuel c = FIFO_Reinsertion_to_evict false fuel c) ∧
    (queue_ok c → c.q ≠ [] →
      ∃ c' v k reinserted,
        (∀ fuel, c.q.length < fuel →
          FIFO_Reinsertion_to_evict true fuel c = some (c', v, k)) ∧
        k = reinserted.length ∧
        ((∃ front o, c.q = front ++ v :: reinserted ∧ c'.q = reinserted ++ front ++ [v] ∧
            heap_read c.heap v = some o ∧
            (o.freq ≤ 1 ∨ o.next_access_vtime = INT64_MAX) ∧
            (o.freq ≤ 1 → ∀ fuel, c.q.length < fuel →
              FIFO_Reinsertion_to_evict false fuel c = some (c', v, k))) ∨
          (reinserted = c.q ∧ c.q.getLast? = some v ∧ c'.q = c.q ∧
            ∀ fuel, c.q.length < fuel →
              FIFO_Reinsertion_to_evict false fuel c = some (c', v, k))) ∧
        (∀ p ∈ reinserted, ∃ o, heap_read c.heap p = some o ∧ 1 < o.freq ∧
          o.next_access_vtime ≠ INT64_MAX ∧
          heap_read c'.heap p = some { o with freq := 1 }) ∧
        (∀ p, p ∉ reinserted → heap_read c'.heap p = heap_read c.heap p) ∧
        c'.hashtable = c.hashtable ∧ c'.n_obj = c.n_obj ∧
        c'.occupied_byte = c.occupied_byte) := by
  refine ⟨?_, fun hc fuel => to_evict_oracle_eq_default fuel c hc, ?_⟩
  · intro v o fuel ht hr hmax
    exact to_evict_stop true fuel c v o ht hr (keep_scanning_oracle_max o hmax)
  · intro hok hne
    obtain ⟨pre, hs, v, hq, hhot, hpre, hlast, hrun⟩ := to_evict_result true c hok hne
    have hlen : hs.length ≤ c.q.length := by simp [hq]
    have hhotd : ∀ p ∈ hs, scan_keeps false c.heap p = true :=
      fun p hp => scan_keeps_oracle_default c.heap p (hhot p hp)
    refine ⟨{ c with heap := reset_all c.heap hs, q := hs ++ pre }, v, hs.length, hs,
      fun fuel hf => hrun fuel (by omega), rfl, ?_, ?_, ?_, rfl, rfl, rfl⟩
    · rcases hpre with hnil | ⟨pre', hpre', hcold⟩
      · right
        subst hnil
        simp only [List.nil_append] at hq
        simp only [List.append_nil] at hlast
        have hvmem : v ∈ hs := List.mem_of_getLast?_eq_some hlast
        obtain ⟨o, ho, -, -⟩ := (scan_keeps_oracle c.heap v).1 (hhot v hvmem)
        refine ⟨hq.symm, by rw [hq]; exact hlast, by simp [hq], fun fuel hf => ?_⟩
        have hrun' := to_evict_run false c [] hs v { o with freq := 1 } (by simpa using hq)
          hok.1 hhotd (by simpa using hlast)
          (by simp [heap_read_reset_all, hvmem, ho]) (keep_scanning_reset false o) fuel
          (by omega)
        simpa using hrun'
      · left
        subst hpre'
        have hvq : v ∈ c.q := by simp [hq]
        obtain ⟨o, ho⟩ := Option.isSome_iff_exists.1 (hok.2 v hvq)
        have hvhs : v ∉ hs := by
          have hnd := hok.1
          rw [hq] at hnd
          intro hmem
          exact (List.nodup_append.1 hnd).2.2 (by simp) hmem
        have hk : keep_scanning true o = false := by simpa [scan_keeps, ho] using hcold
        have hdisj : o.freq ≤ 1 ∨ o.next_access_vtime = INT64_MAX := by
          by_contra hc
          simp only [not_or, not_le] at hc
          simp [keep_scanning, hc.1, hc.2] at hk
        refine ⟨pre', o, by simp [hq], by simp, ho, hdisj, fun hcoldf fuel hf => ?_⟩
        exact to_evict_run false c (pre' ++ [v]) hs v o hq hok.1 hhotd hlast
          (by simp [heap_read_reset_all, hvhs, ho])
          (by simp [keep_scanning]; omega) fuel (by omega)
    · intro p hp
      obtain ⟨o, ho, hf, hm⟩ := (scan_keeps_oracle c.heap p).1 (hhot p hp)
      refine ⟨o, ho, hf, hm, ?_⟩
      show heap_read (reset_all c.heap hs) p = _
      simp [heap_read_reset_all, hp, ho]
    · intro p hp
      show heap_read (reset_all c.heap hs) p = _
      simp [heap_read_reset_all, hp]

theorem queue_ok_example_oracle_mid : queue_ok example_cache_oracle_mid := by
  unfold queue_ok example_cache_oracle_mid
  refine ⟨by decide, ?_⟩
  intro p hp
  simp only [List.mem_cons, List.mem_singleton, List.not_mem_nil, or_false] at hp
  rcases hp with rfl | rfl <;> rfl

theorem example_cache_no_max :
    ∀ p ∈ example_cache.q, ∀ o, heap_read example_cache.heap p = some o →
      o.next_access_vtime ≠ INT64_MAX := by
  intro p hp o ho
  simp only [example_cache, List.mem_cons, List.mem_singleton, List.not_mem_nil,
    or_false] at hp
  rcases hp with rfl | rfl | rfl
  · have e : heap_read example_cache.heap 2 = some ⟨30, 9, 1, 0⟩ := by decide
    rw [e] at ho; cases ho; decide
  · have e : heap_read example_cache.heap 1 = some ⟨20, 7, 1, 0⟩ := by decide
    rw [e] at ho; cases ho; decide
  · have e : heap_read example_cache.heap 0 = some ⟨10, 5, 2, 0⟩ := by decide
    rw [e] at ho; cases ho; decide

/-- Witness of C16. (1) On `example_cache_oracle`, whose hot tail `A` carries `INT64_MAX`, the
oracle build returns `A` at once and unchanged. (2) On the cache with queue `[C, B, A]` no record
carries `INT64_MAX` and both builds compute the same result. (3) On the queue `[X, Y]` with `X`
hot and carrying `INT64_MAX` and the tail `Y` hot with a finite value, the oracle build reinserts
`Y` with hotness 1 and then returns `X`, with its hotness 3 unchanged, after one reinsertion. -/
theorem C16_oracle_scan_witness :
    ((q_tail example_cache_oracle = some 0 ∧
        (heap_read example_cache_oracle.heap 0).map (fun o => o.next_access_vtime)
          = some INT64_MAX) ∧
      FIFO_Reinsertion_to_evict true (0 + 1) example_cache_oracle
        = some (example_cache_oracle, 0, 0)) ∧
    ((∀ p ∈ example_cache.q, ∀ o, heap_read example_cache.heap p = some o →
        o.next_access_vtime ≠ INT64_MAX) ∧
      FIFO_Reinsertion_to_evict true 4 example_cache
        = FIFO_Reinsertion_to_evict false 4 example_cache) ∧
    ((queue_ok example_cache_oracle_mid ∧ example_cache_oracle_mid.q ≠ [] ∧
        FIFO_Reinsertion_to_evict true 3 example_cache_oracle_mid
          = some ({ example_cache_oracle_mid with
                    heap := [some { obj_id := 10, obj_size := 5, freq := 3,
                                    next_access_vtime := INT64_MAX },
                             some { obj_id := 20, obj_size := 7, freq := 1,
                                    next_access_vtime := 0 }],
                    q := [1, 0] }, 0, 1)) ∧
      ∃ c' v k reinserted,
        (∀ fuel, example_cache_oracle_mid.q.length < fuel →
          FIFO_Reinsertion_to_evict true fuel example_cache_oracle_mid = some (c', v, k)) ∧
        k = reinserted.length ∧
        ((∃ front o, example_cache_oracle_mid.q = front ++ v :: reinserted ∧
            c'.q = reinserted ++ front ++ [v] ∧
            heap_read example_cache_oracle_mid.heap v = some o ∧
            (o.freq ≤ 1 ∨ o.next_access_vtime = INT64_MAX) ∧
            (o.freq ≤ 1 → ∀ fuel, example_cache_oracle_mid.q.length < fuel →
              FIFO_Reinsertion_to_evict false fuel example_cache_oracle_mid
                = some (c', v, k))) ∨
          (reinserted = example_cache_oracle_mid.q ∧
            example_cache_oracle_mid.q.getLast? = some v ∧
            c'.q = example_cache_oracle_mid.q ∧
            ∀ fuel, example_cache_oracle_mid.q.length < fuel →
              FIFO_Reinsertion_to_evict false fuel example_cache_oracle_mid
                = some (c', v, k))) ∧
        (∀ p ∈ reinserted, ∃ o, heap_read example_cache_oracle_mid.heap p = some o ∧
          1 < o.freq ∧ o.next_access_vtime ≠ INT64_MAX ∧
          heap_read c'.heap p = some { o with freq := 1 }) ∧
        (∀ p, p ∉ reinserted →
          heap_read c'.heap p = heap_read example_cache_oracle_mid.heap p) ∧
        c'.hashtable = example_cache_oracle_mid.hashtable ∧
        c'.n_obj = example_cache_oracle_mid.n_obj ∧
        c'.occupied_byte = example_cache_oracle_mid.occupied_byte) :=
  ⟨⟨⟨by decide, by decide⟩,
    (C16_oracle_scan example_cache_oracle).1 0
      { obj_id := 10, obj_size := 5, freq := 2, next_access_vtime := INT64_MAX } 0
      (by decide) (by decide) rfl⟩,
   ⟨example_cache_no_max, (C16_oracle_scan example_cache).2.1 example_cache_no_max 4⟩,
   ⟨⟨queue_ok_example_oracle_mid, by decide, by decide⟩,
    (C16_oracle_scan example_cache_oracle_mid).2.2 queue_ok_example_oracle_mid (by decide)⟩⟩

/-! ## C17: the scan only rotates the queue -/

/-- C17. On a well-formed non-empty queue, in either build, `FIFO_Reinsertion_to_evict` only
rotates the queue. With `k` the number of reinsertions (at most the queue length `n`), the
queue on return is the queue before the call rotated by `k` positions towards the head (its
last `k` records now lead: it is the left rotation by `n - k`, and rotating it left by `k`
gives the queue before the call back), the returned victim is at its tail, and it is a
duplicate-free permutation of the queue before the call: no record is lost or duplicated. In the
default build, when every record has hotness above 1, `k = n`, the queue on return is identical
to the queue before the call and every record has hotness 1. -/
theorem C17_to_evict_rotates (USE_BELADY : Bool) (c : cache_t) (hok : queue_ok c)
    (hne : c.q ≠ []) :
    ∃ c' v k,
      (∀ fuel, k < fuel → FIFO_Reinsertion_to_evict USE_BELADY fuel c = some (c', v, k)) ∧
      k ≤ c.q.length ∧
      c'.q = c.q.rotate (c.q.length - k) ∧
      c'.q.rotate k = c.q ∧
      c'.q = c.q.drop (c.q.length - k) ++ c.q.take (c.q.length - k) ∧
      q_tail c' = some v ∧
      c'.q.Perm c.q ∧ c'.q.Nodup ∧
      (USE_BELADY = false → (∀ p ∈ c.q, ∃ f, hotness c.heap p = some f ∧ 1 < f) →
        k = c.q.length ∧ c'.q = c.q ∧ ∀ p ∈ c.q, hotness c'.heap p = some 1) := by
  obtain ⟨pre, hs, v, hq, hhot, hpre, hlast, hrun⟩ := to_evict_result USE_BELADY c hok hne
  have hlen : c.q.length - hs.length = pre.length := by simp [hq]
  have hperm : (hs ++ pre).Perm c.q := by rw [hq]; exact List.perm_append_comm
  refine ⟨{ c with heap := reset_all c.heap hs, q := hs ++ pre }, v, hs.length, hrun,
    by simp [hq], ?_, ?_, ?_, hlast, hperm, hperm.nodup_iff.2 hok.1, ?_⟩
  · show hs ++ pre = c.q.rotate (c.q.length - hs.length)
    rw [hlen, hq, List.rotate_append_length_eq]
  · show (hs ++ pre).rotate hs.length = c.q
    rw [List.rotate_append_length_eq, hq]
  · show hs ++ pre = c.q.drop (c.q.length - hs.length) ++ c.q.take (c.q.length - hs.length)
    rw [hlen, hq, List.drop_left, List.take_left]
  · intro hb hall
    subst hb
    have hprenil : pre = [] := by
      rcases hpre with h | ⟨pre', hp', hcold⟩
      · exact h
      · exfalso
        have hvq : v ∈ c.q := by simp [hq, hp']
        have := (scan_keeps_default c.heap v).2 (hall v hvq)
        rw [hcold] at this
        cases this
    subst hprenil
    simp only [List.nil_append] at hq
    refine ⟨by rw [hq], by simp [hq], ?_⟩
    intro p hp
    obtain ⟨f, hf, -⟩ := hall p hp
    show hotness (reset_all c.heap hs) p = some 1
    unfold hotness at hf ⊢
    rw [heap_read_reset_all, if_pos (hq ▸ hp)]
    cases hr : heap_read c.heap p with
    | none => simp [hr] at hf
    | some o => rfl

/-- Witness of C17 at the cache with queue `[C, B, A]` in which `A` has hotness 2, in the default
build. -/
theorem C17_to_evict_rotates_witness :
    (queue_ok example_cache ∧ example_cache.q ≠ []) ∧
    ∃ c' v k,
      (∀ fuel, k < fuel → FIFO_Reinsertion_to_evict false fuel example_cache = some (c', v, k)) ∧
      k ≤ example_cache.q.length ∧
      c'.q = example_cache.q.rotate (example_cache.q.length - k) ∧
      c'.q.rotate k = example_cache.q ∧
      c'.q = example_cache.q.drop (example_cache.q.length - k)
              ++ example_cache.q.take (example_cache.q.length - k) ∧
      q_tail c' = some v ∧
      c'.q.Perm example_cache.q ∧ c'.q.Nodup ∧
      (false = false →
        (∀ p ∈ example_cache.q, ∃ f, hotness example_cache.heap p = some f ∧ 1 < f) →
        k = example_cache.q.length ∧ c'.q = example_cache.q ∧
        ∀ p ∈ example_cache.q, hotness c'.heap p = some 1) :=
  ⟨⟨queue_ok_example, by decide⟩,
   C17_to_evict_rotates false example_cache queue_ok_example (by decide)⟩

end libCacheSim

